import Mathlib

/-!
Verification model of the vim motion engine in `crates/vim/src/motion.rs`.

The motion functions themselves are translated directly from the source.
External collaborators that live outside the sampled sources (the display
map, the `editor::movement` boundary scanners, the bracket queries of the
buffer snapshot) are modelled from the specification: the display space is
taken to coincide with buffer space (no folds, no soft wrap, every
character one column wide), a buffer is a list of lines, and pixel
coordinates are measured in columns.  Each such definition carries a doc
comment saying what it models.
-/

/-- Bias for clipping/conversion, as in the editor crate. In this model
(identity display map, one column per character) the bias never changes the
clipped result, but the parameter is kept so call sites mirror the source. -/
inductive Bias where
  | left
  | right
deriving DecidableEq, Repr

/-- `FindRange` from `editor::movement`: whether a scan stops at the end of
the current line or crosses line boundaries. -/
inductive FindRange where
  | singleLine
  | multiLine
deriving DecidableEq, Repr

/-- Character kind, from the language crate's classifier. -/
inductive CharKind where
  | whitespace
  | punctuation
  | word
deriving DecidableEq, Repr

/-- A point in display space: row and column. -/
structure DisplayPoint where
  row : Nat
  col : Nat
deriving DecidableEq, Repr

/-- Sticky horizontal intent carried by vertical motions.  Pixel positions
are modelled in column units. -/
inductive SelectionGoal where
  | none
  | horizontalPosition (x : Nat)
  | wrappedHorizontalPosition (row : Nat) (x : Nat)
  | horizontalRange (first : Nat) (last : Nat)
deriving DecidableEq, Repr

/-- Modelled from the spec: the display snapshot.  `lines` is the buffer
content split into lines (newline characters are not stored); the display
map is the identity (no folds, no soft wrap).  `brackets` is the result of
the buffer snapshot's bracket-range query: a list of pairs of byte ranges
(open delimiter range, close delimiter range), `Option.none` when the
buffer has no syntax layer.  Each range is (start, end) with `end`
exclusive. -/
structure DisplaySnapshot where
  lines : List (List Char)
  brackets : Option (List ((Nat × Nat) × (Nat × Nat)))
deriving DecidableEq, Repr

namespace DisplaySnapshot

/-- Lines joined by newline characters. -/
def joinLines : List (List Char) → List Char
  | [] => []
  | [l] => l
  | l :: l2 :: rest => l ++ '\n' :: joinLines (l2 :: rest)

/-- The flattened buffer text, lines joined by newline characters. -/
def text (m : DisplaySnapshot) : List Char :=
  joinLines m.lines

/-- Number of the last row. -/
def maxRow (m : DisplaySnapshot) : Nat :=
  m.lines.length - 1

/-- Length (in characters = columns) of the given display row. -/
def lineLen (m : DisplaySnapshot) (row : Nat) : Nat :=
  ((m.lines.get? row).getD []).length

/-- `DisplaySnapshot::max_point`. -/
def maxPoint (m : DisplaySnapshot) : DisplayPoint :=
  ⟨m.maxRow, m.lineLen m.maxRow⟩

/-- A display point that addresses a real position of the buffer:
its row exists and its column is at most the line length (the position at
the line length is the line-end position, where the newline sits). -/
def Valid (m : DisplaySnapshot) (p : DisplayPoint) : Prop :=
  p.row < m.lines.length ∧ p.col ≤ m.lineLen p.row

instance (m : DisplaySnapshot) (p : DisplayPoint) : Decidable (m.Valid p) := by
  unfold Valid; infer_instance

/-- Clip a point to a valid buffer position.  In this identity model the
bias does not matter; the row is clamped to the last row and the column to
the line length. -/
def clipPoint (m : DisplaySnapshot) (p : DisplayPoint) (_bias : Bias) : DisplayPoint :=
  let r := min p.row m.maxRow
  ⟨r, min p.col (m.lineLen r)⟩

/-- The byte (= character) offset of row/column coordinates in the
flattened text of the given lines. -/
def offsetOfL : List (List Char) → Nat → Nat → Nat
  | _, 0, c => c
  | [], _ + 1, c => c
  | l :: ls, r + 1, c => l.length + 1 + offsetOfL ls r c

/-- The byte (= character) offset of a display point in the flattened text. -/
def offsetOf (m : DisplaySnapshot) (p : DisplayPoint) : Nat :=
  offsetOfL m.lines p.row p.col

/-- Inverse of `offsetOf`: the display point of a character offset. -/
def posOfAux : List (List Char) → Nat → Nat → DisplayPoint
  | [], r, o => ⟨r, o⟩
  | [_], r, o => ⟨r, o⟩
  | l :: l' :: rest, r, o =>
    if o ≤ l.length then ⟨r, o⟩ else posOfAux (l' :: rest) (r + 1) (o - l.length - 1)

/-- The display point addressed by a character offset of the flattened text. -/
def posOf (m : DisplaySnapshot) (o : Nat) : DisplayPoint :=
  posOfAux m.lines 0 o

/-- Length of the flattened text. -/
def textLen (m : DisplaySnapshot) : Nat :=
  m.text.length

/-- The character at a given offset of the flattened text, `'\n'` when out
of range (the virtual newline past the end never matches a search target in
the claims below; scans themselves never read out of range). -/
def charAt (m : DisplaySnapshot) (o : Nat) : Char :=
  (m.text.get? o).getD '\n'

/-- `buffer_chars_at`: the characters of the buffer from `o` on, paired
with their offsets. -/
def bufferCharsAt (m : DisplaySnapshot) (o : Nat) : List (Char × Nat) :=
  ((m.text.drop o).enumFrom o).map (fun x => (x.2, x.1))

/-- `reverse_buffer_chars_at`: the characters strictly before `o`, nearest
first, paired with their offsets. -/
def reverseBufferCharsAt (m : DisplaySnapshot) (o : Nat) : List (Char × Nat) :=
  (((m.text.take o).enum).map (fun x => (x.2, x.1))).reverse

/-- Modelled from the spec: `prev_line_boundary` — the position where the
point's line begins (column 0 of its row), as (buffer point, display
point); both coincide in this model. -/
def prevLineBoundary (m : DisplaySnapshot) (p : DisplayPoint) : DisplayPoint × DisplayPoint :=
  let r := min p.row m.maxRow
  (⟨r, 0⟩, ⟨r, 0⟩)

/-- Modelled from the spec: `next_line_boundary` — the position where the
point's line ends (column = line length of its row), as (buffer point,
display point).  This is the line-end position: the source's `end_of_line`
is `clip(next_line_boundary(point).1, Left)`. -/
def nextLineBoundary (m : DisplaySnapshot) (p : DisplayPoint) : DisplayPoint × DisplayPoint :=
  let r := min p.row m.maxRow
  (⟨r, m.lineLen r⟩, ⟨r, m.lineLen r⟩)

/-- Modelled from the spec: `clip_at_line_end` — a point sitting at the
line-end position (column = line length, past the last character) is pulled
back one column. -/
def clipAtLineEnd (m : DisplaySnapshot) (p : DisplayPoint) : DisplayPoint :=
  let p := m.clipPoint p .left
  if p.col = m.lineLen p.row then ⟨p.row, p.col - 1⟩ else p

end DisplaySnapshot

/-- Layout context for viewport-relative motions.  `scrollAnchor` is the
display position of the first visible line, `scrollOffsetY` the fractional
scroll offset (modelled integral, in rows), `visibleRows` the height of the
viewport in rows when known, `verticalScrollMargin` the scroll margin
(modelled integral). -/
structure TextLayoutDetails where
  scrollAnchor : DisplayPoint
  scrollOffsetY : Nat
  visibleRows : Option Nat
  verticalScrollMargin : Nat
deriving DecidableEq, Repr

/-- A selection in display space, as in the text crate.  `start` and `stop`
are the source's `start`/`end` fields (`end` is reserved in Lean);
`start ≤ stop` is the intended invariant, `reversed` records whether the
head is `start`. -/
structure Selection where
  start : DisplayPoint
  stop : DisplayPoint
  reversed : Bool
  goal : SelectionGoal
deriving DecidableEq, Repr

/-- Lexicographic order on display points, as `Ord` on points. -/
def dpLt (a b : DisplayPoint) : Bool :=
  Nat.blt a.row b.row || (a.row == b.row && Nat.blt a.col b.col)

namespace Selection

/-- The moving end of the selection. -/
def head (s : Selection) : DisplayPoint :=
  if s.reversed then s.start else s.stop

/-- The fixed end of the selection. -/
def tail (s : Selection) : DisplayPoint :=
  if s.reversed then s.stop else s.start

/-- Modelled from the spec: `Selection::set_head` — move the head, flipping
`reversed` and swapping the ends so that `first ≤ last` stays true. -/
def setHead (s : Selection) (h : DisplayPoint) (g : SelectionGoal) : Selection :=
  if dpLt h s.tail then
    { start := h, stop := s.tail, reversed := true, goal := g }
  else
    { start := s.tail, stop := h, reversed := false, goal := g }

end Selection

/-! ## Movement primitives (modelled from the spec, `editor::movement`) -/

namespace DisplaySnapshot

/-- Modelled from the spec: `movement::left` — one position backward,
wrapping to the end of the previous line; saturates at the buffer start. -/
def movementLeft (m : DisplaySnapshot) (p : DisplayPoint) : DisplayPoint :=
  if 0 < p.col then m.clipPoint ⟨p.row, p.col - 1⟩ .left
  else if 0 < p.row then m.clipPoint ⟨p.row - 1, m.lineLen (p.row - 1)⟩ .left
  else m.clipPoint ⟨0, 0⟩ .left

/-- Modelled from the spec: `movement::right` — one position forward,
wrapping to the start of the next line; saturates at the buffer end. -/
def movementRight (m : DisplaySnapshot) (p : DisplayPoint) : DisplayPoint :=
  if p.col < m.lineLen p.row then m.clipPoint ⟨p.row, p.col + 1⟩ .right
  else if p.row < m.maxRow then m.clipPoint ⟨p.row + 1, 0⟩ .right
  else m.clipPoint p .right

/-- Modelled from the spec: `movement::saturating_left` — one column back,
stopping at column 0 of the current line (never wraps). -/
def saturatingLeft (m : DisplaySnapshot) (p : DisplayPoint) : DisplayPoint :=
  m.clipPoint ⟨p.row, p.col - 1⟩ .left

/-- Modelled from the spec: `movement::saturating_right` — one column
forward, stopping at the end of the current line (never wraps). -/
def saturatingRight (m : DisplaySnapshot) (p : DisplayPoint) : DisplayPoint :=
  m.clipPoint ⟨p.row, p.col + 1⟩ .right

end DisplaySnapshot

/-- Forward pair scan, the tail of `movement::find_boundary`: walks the
remaining characters keeping the previous one, threading the predicate's
captured state `σ`; returns the offset where the predicate first fires
(the position of the right character of the firing pair), the final state,
and whether it fired.  Without a fire it returns the offset of the end of
the scan (the buffer end, or the newline for a single-line scan). -/
def fbAux {σ : Type} (mode : FindRange) (pred : σ → Char → Char → σ × Bool) :
    List Char → Nat → Char → σ → Nat × σ × Bool
  | [], off, _, s => (off, s, false)
  | ch :: rest, off, prev, s =>
    if mode = .singleLine ∧ ch = '\n' then (off, s, false)
    else
      let r := pred s prev ch
      if r.2 then (off, r.1, true)
      else fbAux mode pred rest (off + 1) ch r.1

/-- Modelled from the spec: the Boundary Scanner, forward direction
(`movement::find_boundary`), at the offset level. -/
def findBoundaryOff {σ : Type} (m : DisplaySnapshot) (start : Nat) (mode : FindRange)
    (pred : σ → Char → Char → σ × Bool) (s0 : σ) : Nat × σ × Bool :=
  match m.text.drop start with
  | [] => (start, s0, false)
  | c :: rest =>
    if mode = .singleLine ∧ c = '\n' then (start, s0, false)
    else fbAux mode pred rest (start + 1) c s0

/-- `movement::find_boundary` on display points, with predicate state. -/
def findBoundarySt {σ : Type} (m : DisplaySnapshot) (p : DisplayPoint) (mode : FindRange)
    (pred : σ → Char → Char → σ × Bool) (s0 : σ) : DisplayPoint × σ × Bool :=
  let r := findBoundaryOff m (m.offsetOf p) mode pred s0
  (m.clipPoint (m.posOf r.1) .right, r.2)

/-- `movement::find_boundary` with a stateless predicate. -/
def findBoundary (m : DisplaySnapshot) (p : DisplayPoint) (mode : FindRange)
    (pred : Char → Char → Bool) : DisplayPoint :=
  (findBoundarySt m p mode (fun (_ : Unit) l r => ((), pred l r)) ()).1

/-- `movement::find_boundary_exclusive`: as `find_boundary`, but lands one
position before the firing pair (on the left character). -/
def findBoundaryExclusiveSt {σ : Type} (m : DisplaySnapshot) (p : DisplayPoint)
    (mode : FindRange) (pred : σ → Char → Char → σ × Bool) (s0 : σ) :
    DisplayPoint × σ × Bool :=
  let r := findBoundaryOff m (m.offsetOf p) mode pred s0
  if r.2.2 then (m.clipPoint (m.posOf (r.1 - 1)) .right, r.2)
  else (m.clipPoint (m.posOf r.1) .right, r.2)

/-- Backward pair scan, the tail of `movement::find_preceding_boundary`:
characters are supplied nearest-first; the predicate sees (left, right)
pairs and a fire returns the position of the right character. -/
def fpAux {σ : Type} (mode : FindRange) (pred : σ → Char → Char → σ × Bool) :
    List Char → Nat → Option Char → σ → Nat × σ × Bool
  | [], off, _, s => (off, s, false)
  | ch :: rest, off, prev?, s =>
    if mode = .singleLine ∧ ch = '\n' then (off, s, false)
    else
      match prev? with
      | some prev =>
        let r := pred s ch prev
        if r.2 then (off, r.1, true)
        else fpAux mode pred rest (off - 1) (some ch) r.1
      | none => fpAux mode pred rest (off - 1) (some ch) s

/-- Modelled from the spec: the Boundary Scanner, backward direction
(`movement::find_preceding_boundary`), at the offset level.  Returns the
buffer start when the predicate never fires. -/
def findPrecedingOff {σ : Type} (m : DisplaySnapshot) (start : Nat) (mode : FindRange)
    (pred : σ → Char → Char → σ × Bool) (s0 : σ) : Nat × σ × Bool :=
  fpAux mode pred (m.text.take start).reverse start none s0

/-- `movement::find_preceding_boundary_display_point`, with predicate state. -/
def findPrecedingSt {σ : Type} (m : DisplaySnapshot) (p : DisplayPoint) (mode : FindRange)
    (pred : σ → Char → Char → σ × Bool) (s0 : σ) : DisplayPoint × σ × Bool :=
  let r := findPrecedingOff m (m.offsetOf p) mode pred s0
  (m.clipPoint (m.posOf r.1) .left, r.2)

/-- `movement::find_preceding_boundary_display_point` with a stateless
predicate. -/
def findPrecedingBoundaryDisplayPoint (m : DisplaySnapshot) (p : DisplayPoint)
    (mode : FindRange) (pred : Char → Char → Bool) : DisplayPoint :=
  (findPrecedingSt m p mode (fun (_ : Unit) l r => ((), pred l r)) ()).1

/-! ## Character classifier (spec section on CharacterClassifier) -/

/-- The character classifier of the language crate, modelled from the
spec over ASCII-style classes: whitespace, word (alphanumeric or
underscore), punctuation (anything else); `ignorePunctuation` folds
punctuation into word. -/
structure CharClassifier where
  ignorePunctuation : Bool
deriving DecidableEq, Repr

/-- `classifier.kind(ch)`. -/
def CharClassifier.kind (cl : CharClassifier) (c : Char) : CharKind :=
  if c.isWhitespace then .whitespace
  else if c.isAlphanum || c = '_' then .word
  else if cl.ignorePunctuation then .word
  else .punctuation

/-- `char_classifier_at`: the classifier in effect at a position (the model
has a single language scope). -/
def DisplaySnapshot.charClassifierAt (_m : DisplaySnapshot) (_p : DisplayPoint) :
    CharClassifier :=
  ⟨false⟩

/-- `classifier.ignore_punctuation(b)`. -/
def CharClassifier.ignore_punctuation (_cl : CharClassifier) (b : Bool) : CharClassifier :=
  ⟨b⟩

/-! ## Character search: find / sneak (`motion.rs`) -/

/-- Rust `char::is_uppercase`, modelled over the ASCII range (Unicode case
tables are outside this model). -/
def isUppercaseChar (c : Char) : Bool :=
  decide ('A' ≤ c ∧ c ≤ 'Z')

/-- Rust `char::is_lowercase`, modelled over the ASCII range. -/
def isLowercaseChar (c : Char) : Bool :=
  decide ('a' ≤ c ∧ c ≤ 'z')

/-- Rust `char::to_ascii_lowercase`. -/
def toAsciiLowercase (c : Char) : Char :=
  if 'A' ≤ c ∧ c ≤ 'Z' then Char.ofNat (c.toNat + 32) else c

/-- Rust `char::to_ascii_uppercase` (used only to state claims). -/
def toAsciiUppercase (c : Char) : Char :=
  if 'a' ≤ c ∧ c ≤ 'z' then Char.ofNat (c.toNat - 32) else c

/-- `is_character_match` from `motion.rs`. -/
def is_character_match (target other : Char) (smartcase : Bool) : Bool :=
  if smartcase then
    if isUppercaseChar target then target == other
    else target == toAsciiLowercase other
  else target == other

/-- The repeat loop of `find_forward`: each iteration scans forward for the
target from the current position; `found` is the value left in the
captured `found` flag (whether the last scan's predicate fired). -/
def ffLoop (m : DisplaySnapshot) (mode : FindRange) (target : Char) (smartcase : Bool) :
    DisplayPoint → Bool → Nat → DisplayPoint × Bool
  | cur, found, 0 => (cur, found)
  | cur, _, times + 1 =>
    let r := findBoundarySt m cur mode
      (fun (_ : Unit) _l right => ((), is_character_match target right smartcase)) ()
    if r.1 = cur then (cur, r.2.2)
    else ffLoop m mode target smartcase r.1 r.2.2 times

/-- `find_forward` from `motion.rs`. -/
def find_forward (m : DisplaySnapshot) (src : DisplayPoint) (before : Bool) (target : Char)
    (times : Nat) (mode : FindRange) (smartcase : Bool) : Option DisplayPoint :=
  let r := ffLoop m mode target smartcase src false times
  if r.2 then
    if before ∧ 0 < r.1.col then some (m.clipPoint ⟨r.1.row, r.1.col - 1⟩ .left)
    else some r.1
  else none

/-- The repeat loop of `find_backward`. -/
def fbwLoop (m : DisplaySnapshot) (mode : FindRange) (target : Char) (smartcase : Bool) :
    DisplayPoint → Nat → DisplayPoint
  | cur, 0 => cur
  | cur, times + 1 =>
    let r := findPrecedingSt m cur mode
      (fun (_ : Unit) _l right => ((), is_character_match target right smartcase)) ()
    if r.1 = cur then cur
    else fbwLoop m mode target smartcase r.1 times

/-- `find_backward` from `motion.rs`. -/
def find_backward (m : DisplaySnapshot) (src : DisplayPoint) (after : Bool) (target : Char)
    (times : Nat) (mode : FindRange) (smartcase : Bool) : DisplayPoint :=
  let cur := fbwLoop m mode target smartcase src times
  match (m.bufferCharsAt (m.offsetOf cur)).head? with
  | some cn =>
    if is_character_match target cn.1 smartcase then
      if after then m.clipPoint ⟨cur.row, cur.col + 1⟩ .right else cur
    else src
  | none => src

/-- The repeat loop of `sneak`. -/
def snLoop (m : DisplaySnapshot) (c1 c2 : Char) (smartcase : Bool) :
    DisplayPoint → Bool → Nat → DisplayPoint × Bool
  | cur, found, 0 => (cur, found)
  | cur, _, times + 1 =>
    let r := findBoundarySt m (m.movementRight cur) .multiLine
      (fun (_ : Unit) left right =>
        ((), is_character_match c1 left smartcase && is_character_match c2 right smartcase)) ()
    if r.1 = cur then (cur, r.2.2)
    else snLoop m c1 c2 smartcase r.1 r.2.2 times

/-- `sneak` from `motion.rs`. -/
def sneak (m : DisplaySnapshot) (src : DisplayPoint) (c1 c2 : Char) (times : Nat)
    (smartcase : Bool) : Option DisplayPoint :=
  let r := snLoop m c1 c2 smartcase src false times
  if r.2 then some (m.movementLeft r.1) else none

/-- The repeat loop of `sneak_backward`. -/
def sbLoop (m : DisplaySnapshot) (c1 c2 : Char) (smartcase : Bool) :
    DisplayPoint → Bool → Nat → DisplayPoint × Bool
  | cur, found, 0 => (cur, found)
  | cur, _, times + 1 =>
    let r := findPrecedingSt m cur .multiLine
      (fun (_ : Unit) left right =>
        ((), is_character_match c1 left smartcase && is_character_match c2 right smartcase)) ()
    if r.1 = cur then (cur, r.2.2)
    else sbLoop m c1 c2 smartcase r.1 r.2.2 times

/-- `sneak_backward` from `motion.rs`. -/
def sneak_backward (m : DisplaySnapshot) (src : DisplayPoint) (c1 c2 : Char) (times : Nat)
    (smartcase : Bool) : Option DisplayPoint :=
  let r := sbLoop m c1 c2 smartcase src false times
  if r.2 then some (m.movementLeft r.1) else none

/-! ## Elementary motions (`motion.rs`) -/

/-- `left` from `motion.rs`: repeat `saturating_left`, stopping at column 0. -/
def left (m : DisplaySnapshot) : DisplayPoint → Nat → DisplayPoint
  | p, 0 => p
  | p, times + 1 =>
    let p := m.saturatingLeft p
    if p.col = 0 then p else left m p times

/-- `backspace` from `motion.rs`: repeat `movement::left`, stopping at the
buffer start. -/
def backspace (m : DisplaySnapshot) : DisplayPoint → Nat → DisplayPoint
  | p, 0 => p
  | p, times + 1 =>
    let p := m.movementLeft p
    if p = ⟨0, 0⟩ then p else backspace m p times

/-- `wrapping_right` from `motion.rs`. -/
def wrapping_right (m : DisplaySnapshot) (p : DisplayPoint) : DisplayPoint :=
  let maxColumn := m.lineLen p.row - 1
  if p.col < maxColumn then ⟨p.row, p.col + 1⟩
  else if p.row < m.maxPoint.row then ⟨p.row + 1, 0⟩
  else p

/-- `space` from `motion.rs`: repeat `wrapping_right`, stopping at the
buffer end. -/
def space (m : DisplaySnapshot) : DisplayPoint → Nat → DisplayPoint
  | p, 0 => p
  | p, times + 1 =>
    let p := wrapping_right m p
    if p = m.maxPoint then p else space m p times

/-- `right` from `motion.rs`: repeat `saturating_right`, stopping when no
progress is made. -/
def right (m : DisplaySnapshot) : DisplayPoint → Nat → DisplayPoint
  | p, 0 => p
  | p, times + 1 =>
    let np := m.saturatingRight p
    if p = np then p else right m np times

/-- `start_of_relative_buffer_row` from `motion.rs` (fold space coincides
with display space in this model). -/
def start_of_relative_buffer_row (m : DisplaySnapshot) (p : DisplayPoint) (times : Int) :
    DisplayPoint :=
  let target : Int := (p.row : Int) + times
  let newRow := min (max target 0).toNat m.maxRow
  m.clipPoint (m.clipPoint ⟨newRow, 0⟩ .right) .right

/-- `x_for_display_point`: the pixel x of a display point, modelled in
column units. -/
def DisplaySnapshot.xForDisplayPoint (_m : DisplaySnapshot) (p : DisplayPoint)
    (_tld : TextLayoutDetails) : Nat :=
  p.col

/-- `display_column_for_x`: the column whose pixel x is nearest the given
x on the given row, modelled in column units. -/
def DisplaySnapshot.displayColumnForX (m : DisplaySnapshot) (row : Nat) (x : Nat)
    (_tld : TextLayoutDetails) : Nat :=
  min x (m.lineLen row)

/-- The wrapped-row walk inside `up_down_buffer_rows` (under the identity
fold map a display row below `new_row` never re-enters fold row `new_row`,
so the walk stops immediately, but the loop is kept as in the source). -/
def udLoop (m : DisplaySnapshot) (newRow : Nat) : Nat → Nat → DisplayPoint → Nat × DisplayPoint
  | i, 0, b => (i, b)
  | i, rem + 1, b =>
    if b.row < m.maxPoint.row then
      let nxt : DisplayPoint := ⟨b.row + 1, 0⟩
      if nxt.row = newRow then udLoop m newRow (i + 1) rem nxt else (i, b)
    else (i, b)

/-- `up_down_buffer_rows` from `motion.rs`. -/
def up_down_buffer_rows (m : DisplaySnapshot) (p : DisplayPoint) (goal : SelectionGoal)
    (times : Int) (tld : TextLayoutDetails) : DisplayPoint × SelectionGoal :=
  let bias := if times < 0 then Bias.left else Bias.right
  let start := p
  let beginFoldedLine := m.clipPoint ⟨start.row, 0⟩ .left
  let selectNthWrappedRow := p.row - beginFoldedLine.row
  let gw : Nat × Nat := match goal with
    | .wrappedHorizontalPosition r x => (r, x)
    | .horizontalRange _ l => (selectNthWrappedRow, l)
    | .horizontalPosition x => (selectNthWrappedRow, x)
    | .none => (selectNthWrappedRow, m.xForDisplayPoint p tld)
  let goal' : SelectionGoal := match goal with
    | .none => .wrappedHorizontalPosition selectNthWrappedRow (m.xForDisplayPoint p tld)
    | g => g
  let target : Int := (start.row : Int) + times
  let newRow := min (max target 0).toNat m.maxRow
  let begin2 := m.clipPoint ⟨newRow, 0⟩ bias
  let walk := udLoop m newRow 0 gw.1 begin2
  let newCol := if walk.1 = gw.1 then m.displayColumnForX walk.2.row gw.2 tld
    else m.lineLen walk.2.row
  (m.clipPoint ⟨walk.2.row, newCol⟩ bias, goal')

/-- Modelled from the spec: `movement::down` — one display row down,
keeping the sticky horizontal goal. -/
def DisplaySnapshot.movementDown (m : DisplaySnapshot) (p : DisplayPoint)
    (goal : SelectionGoal) (_preserveColumnAtStart : Bool) (_tld : TextLayoutDetails) :
    DisplayPoint × SelectionGoal :=
  let x := match goal with
    | .horizontalPosition x => x
    | .wrappedHorizontalPosition _ x => x
    | .horizontalRange _ l => l
    | .none => p.col
  (m.clipPoint ⟨min (p.row + 1) m.maxRow, x⟩ .right, .horizontalPosition x)

/-- Modelled from the spec: `movement::up` — one display row up, keeping
the sticky horizontal goal. -/
def DisplaySnapshot.movementUp (m : DisplaySnapshot) (p : DisplayPoint)
    (goal : SelectionGoal) (_preserveColumnAtStart : Bool) (_tld : TextLayoutDetails) :
    DisplayPoint × SelectionGoal :=
  let x := match goal with
    | .horizontalPosition x => x
    | .wrappedHorizontalPosition _ x => x
    | .horizontalRange _ l => l
    | .none => p.col
  (m.clipPoint ⟨p.row - 1, x⟩ .left, .horizontalPosition x)

/-- `down_display` from `motion.rs`. -/
def down_display (m : DisplaySnapshot) (tld : TextLayoutDetails) :
    DisplayPoint → SelectionGoal → Nat → DisplayPoint × SelectionGoal
  | p, g, 0 => (p, g)
  | p, g, times + 1 =>
    let r := m.movementDown p g true tld
    down_display m tld r.1 r.2 times

/-- `up_display` from `motion.rs`. -/
def up_display (m : DisplaySnapshot) (tld : TextLayoutDetails) :
    DisplayPoint → SelectionGoal → Nat → DisplayPoint × SelectionGoal
  | p, g, 0 => (p, g)
  | p, g, times + 1 =>
    let r := m.movementUp p g true tld
    up_display m tld r.1 r.2 times

/-- `clip_ignoring_line_ends`, modelled as ordinary clipping (the model has
no fold placeholders). -/
def DisplaySnapshot.clipIgnoringLineEnds (m : DisplaySnapshot) (p : DisplayPoint)
    (b : Bias) : DisplayPoint :=
  m.clipPoint p b

/-- `next_char` from `motion.rs`.  (For an empty line with
`allow_cross_newline = false` the source's `max_column -= 1` underflows a
`u32`; the model uses truncated subtraction, and no claim evaluates that
path.) -/
def next_char (m : DisplaySnapshot) (p : DisplayPoint) (allowCrossNewline : Bool) :
    DisplayPoint :=
  let maxColumn := if allowCrossNewline then m.lineLen p.row else m.lineLen p.row - 1
  if p.col < maxColumn then
    m.clipIgnoringLineEnds ⟨p.row, p.col + 1⟩ .right
  else if dpLt p m.maxPoint ∧ allowCrossNewline then
    m.clipIgnoringLineEnds ⟨p.row + 1, 0⟩ .right
  else
    m.clipIgnoringLineEnds p .right

/-! ## Word and subword motions (`motion.rs`) -/

/-- The per-repetition loop of `next_word_start`; the scan state is the
captured `crossed_newline` flag. -/
def nwsLoop (m : DisplaySnapshot) (classifier : CharClassifier) :
    DisplayPoint → Nat → DisplayPoint
  | p, 0 => p
  | p, times + 1 =>
    let r := findBoundarySt m p .multiLine
      (fun (crossedNewline : Bool) l rt =>
        let leftKind := classifier.kind l
        let rightKind := classifier.kind rt
        let atNewline := rt == '\n'
        let found := (leftKind != rightKind && rightKind != CharKind.whitespace)
          || (atNewline && crossedNewline)
          || (atNewline && l == '\n')
        (crossedNewline || atNewline, found)) false
    if p = r.1 then p else nwsLoop m classifier r.1 times

/-- `next_word_start` from `motion.rs`. -/
def next_word_start (m : DisplaySnapshot) (p : DisplayPoint) (ignorePunctuation : Bool)
    (times : Nat) : DisplayPoint :=
  let classifier := (m.charClassifierAt p).ignore_punctuation ignorePunctuation
  nwsLoop m classifier p times

/-- The per-repetition loop of `next_word_end`; the scan state is the
captured `need_next_char` flag. -/
def nweLoop (m : DisplaySnapshot) (classifier : CharClassifier) (allowCrossNewline : Bool) :
    DisplayPoint → Nat → DisplayPoint
  | p, 0 => p
  | p, times + 1 =>
    let np := next_char m p allowCrossNewline
    let r := findBoundaryExclusiveSt m np .multiLine
      (fun (needNextChar : Bool) l rt =>
        let leftKind := classifier.kind l
        let rightKind := classifier.kind rt
        let atNewline := rt == '\n'
        if !allowCrossNewline && atNewline then (true, true)
        else (needNextChar, leftKind != rightKind && leftKind != CharKind.whitespace))
      false
    let np2 := if r.2.1 then next_char m r.1 true else r.1
    let np3 := m.clipPoint np2 .left
    if p = np3 then p else nweLoop m classifier allowCrossNewline np3 times

/-- `next_word_end` from `motion.rs`. -/
def next_word_end (m : DisplaySnapshot) (p : DisplayPoint) (ignorePunctuation : Bool)
    (times : Nat) (allowCrossNewline : Bool) : DisplayPoint :=
  let classifier := (m.charClassifierAt p).ignore_punctuation ignorePunctuation
  nweLoop m classifier allowCrossNewline p times

/-- The per-repetition loop of `previous_word_start`. -/
def pwsLoop (m : DisplaySnapshot) (classifier : CharClassifier) :
    DisplayPoint → Nat → DisplayPoint
  | p, 0 => p
  | p, times + 1 =>
    let np := findPrecedingBoundaryDisplayPoint m p .multiLine
      (fun l rt =>
        let leftKind := classifier.kind l
        let rightKind := classifier.kind rt
        (leftKind != rightKind && !rt.isWhitespace) || l == '\n')
    if p = np then p else pwsLoop m classifier np times

/-- `previous_word_start` from `motion.rs`. -/
def previous_word_start (m : DisplaySnapshot) (p : DisplayPoint) (ignorePunctuation : Bool)
    (times : Nat) : DisplayPoint :=
  let classifier := (m.charClassifierAt p).ignore_punctuation ignorePunctuation
  pwsLoop m classifier p times

/-- `find_preceding_boundary_point` on buffer points (identical to the
display version in this model, without final clipping). -/
def findPrecedingBoundaryPoint (m : DisplaySnapshot) (p : DisplayPoint) (mode : FindRange)
    (pred : Char → Char → Bool) : DisplayPoint :=
  m.posOf (findPrecedingOff m (m.offsetOf p) mode
    (fun (_ : Unit) l r => ((), pred l r)) ()).1

/-- The per-repetition loop of `previous_word_end`. -/
def pweLoop (m : DisplaySnapshot) (classifier : CharClassifier) :
    DisplayPoint → Nat → DisplayPoint
  | pt, 0 => pt
  | pt, times + 1 =>
    let np := findPrecedingBoundaryPoint m pt .multiLine
      (fun l rt =>
        match classifier.kind l, classifier.kind rt with
        | .punctuation, .whitespace => true
        | .punctuation, .word => true
        | .word, .whitespace => true
        | .word, .punctuation => true
        | .whitespace, .whitespace => l == '\n' && rt == '\n'
        | _, _ => false)
    if np = pt then pt else pweLoop m classifier np times

/-- `previous_word_end` from `motion.rs`. -/
def previous_word_end (m : DisplaySnapshot) (p : DisplayPoint) (ignorePunctuation : Bool)
    (times : Nat) : DisplayPoint :=
  let classifier := (m.charClassifierAt p).ignore_punctuation ignorePunctuation
  let pt := if p.col < m.lineLen p.row then ⟨p.row, p.col + 1⟩ else p
  m.saturatingLeft (pweLoop m classifier pt times)

/-- The per-repetition loop of `next_subword_start`. -/
def nssLoop (m : DisplaySnapshot) (classifier : CharClassifier) :
    DisplayPoint → Nat → DisplayPoint
  | p, 0 => p
  | p, times + 1 =>
    let r := findBoundarySt m p .multiLine
      (fun (crossedNewline : Bool) l rt =>
        let leftKind := classifier.kind l
        let rightKind := classifier.kind rt
        let atNewline := rt == '\n'
        let isWordStart := leftKind != rightKind && !l.isAlphanum
        let isSubwordStart := (l == '_' && rt != '_') || (l.isLower && rt.isUpper)
        let found := (!rt.isWhitespace && (isWordStart || isSubwordStart))
          || (atNewline && crossedNewline)
          || (atNewline && l == '\n')
        (crossedNewline || atNewline, found)) false
    if p = r.1 then p else nssLoop m classifier r.1 times

/-- `next_subword_start` from `motion.rs`. -/
def next_subword_start (m : DisplaySnapshot) (p : DisplayPoint) (ignorePunctuation : Bool)
    (times : Nat) : DisplayPoint :=
  let classifier := (m.charClassifierAt p).ignore_punctuation ignorePunctuation
  nssLoop m classifier p times

/-- The per-repetition loop of `next_subword_end`; the scan state is the
pair (crossed_newline, need_backtrack). -/
def nseLoop (m : DisplaySnapshot) (classifier : CharClassifier) (allowCrossNewline : Bool) :
    DisplayPoint → Nat → DisplayPoint
  | p, 0 => p
  | p, times + 1 =>
    let np := next_char m p allowCrossNewline
    let r := findBoundarySt m np .multiLine
      (fun (st : Bool × Bool) l rt =>
        let leftKind := classifier.kind l
        let rightKind := classifier.kind rt
        let atNewline := rt == '\n'
        if !allowCrossNewline && atNewline then (st, true)
        else
          let isWordEnd := leftKind != rightKind && !rt.isAlphanum
          let isSubwordEnd := (l != '_' && rt == '_') || (l.isLower && rt.isUpper)
          let found := !l.isWhitespace && !atNewline && (isWordEnd || isSubwordEnd)
          let needBacktrack := st.2 || (found && (isWordEnd || isSubwordEnd))
          ((st.1 || atNewline, needBacktrack), found))
      (false, false)
    let np2 := m.clipPoint r.1 .left
    let np3 := if r.2.1.2 then (⟨np2.row, np2.col - 1⟩ : DisplayPoint) else np2
    let np4 := m.clipPoint np3 .left
    if p = np4 then p else nseLoop m classifier allowCrossNewline np4 times

/-- `next_subword_end` from `motion.rs`. -/
def next_subword_end (m : DisplaySnapshot) (p : DisplayPoint) (ignorePunctuation : Bool)
    (times : Nat) (allowCrossNewline : Bool) : DisplayPoint :=
  let classifier := (m.charClassifierAt p).ignore_punctuation ignorePunctuation
  nseLoop m classifier allowCrossNewline p times

/-- The per-repetition loop of `previous_subword_start`. -/
def pssLoop (m : DisplaySnapshot) (classifier : CharClassifier) :
    DisplayPoint → Nat → DisplayPoint
  | p, 0 => p
  | p, times + 1 =>
    let r := findPrecedingSt m p .multiLine
      (fun (crossedNewline : Bool) l rt =>
        let leftKind := classifier.kind l
        let rightKind := classifier.kind rt
        let atNewline := rt == '\n'
        let isWordStart := leftKind != rightKind && !l.isAlphanum
        let isSubwordStart := (l == '_' && rt != '_') || (l.isLower && rt.isUpper)
        let found := (!rt.isWhitespace && (isWordStart || isSubwordStart))
          || (atNewline && crossedNewline)
          || (atNewline && l == '\n')
        (crossedNewline || atNewline, found)) false
    if p = r.1 then p else pssLoop m classifier r.1 times

/-- `previous_subword_start` from `motion.rs`. -/
def previous_subword_start (m : DisplaySnapshot) (p : DisplayPoint) (ignorePunctuation : Bool)
    (times : Nat) : DisplayPoint :=
  let classifier := (m.charClassifierAt p).ignore_punctuation ignorePunctuation
  pssLoop m classifier p times

/-- The per-repetition loop of `previous_subword_end`. -/
def pseLoop (m : DisplaySnapshot) (classifier : CharClassifier) :
    DisplayPoint → Nat → DisplayPoint
  | pt, 0 => pt
  | pt, times + 1 =>
    let np := findPrecedingBoundaryPoint m pt .multiLine
      (fun l rt =>
        let isSubwordEnd := (l != '_' && rt == '_') || (l.isLower && rt.isUpper)
        if isSubwordEnd then true
        else
          match classifier.kind l, classifier.kind rt with
          | .word, .whitespace => true
          | .word, .punctuation => true
          | .whitespace, .whitespace => l == '\n' && rt == '\n'
          | _, _ => false)
    if np = pt then pt else pseLoop m classifier np times

/-- `previous_subword_end` from `motion.rs`. -/
def previous_subword_end (m : DisplaySnapshot) (p : DisplayPoint) (ignorePunctuation : Bool)
    (times : Nat) : DisplayPoint :=
  let classifier := (m.charClassifierAt p).ignore_punctuation ignorePunctuation
  let pt := if p.col < m.lineLen p.row then ⟨p.row, p.col + 1⟩ else p
  m.saturatingLeft (pseLoop m classifier pt times)

/-! ## Line-position motions (`motion.rs`) -/

/-- `start_of_line` from `motion.rs`. -/
def start_of_line (m : DisplaySnapshot) (displayLines : Bool) (p : DisplayPoint) :
    DisplayPoint :=
  if displayLines then m.clipPoint ⟨p.row, 0⟩ .right
  else (m.prevLineBoundary p).2

/-- `end_of_line` from `motion.rs`. -/
def end_of_line (m : DisplaySnapshot) (displayLines : Bool) (p : DisplayPoint)
    (times : Nat) : DisplayPoint :=
  let p := if 1 < times then start_of_relative_buffer_row m p ((times : Int) - 1) else p
  if displayLines then m.clipPoint ⟨p.row, m.lineLen p.row⟩ .left
  else m.clipPoint (m.nextLineBoundary p).2 .left

/-- The loop of `first_non_whitespace`: walk the line's characters,
remembering the last visited offset; bail out to the starting point on a
newline; stop on the first non-whitespace character. -/
def fnwLoop (m : DisplaySnapshot) (classifier : CharClassifier) (src : DisplayPoint) :
    List (Char × Nat) → Nat → DisplayPoint
  | [], acc => m.posOf acc
  | (ch, off) :: rest, acc =>
    if ch = '\n' then src
    else if classifier.kind ch != CharKind.whitespace then m.posOf off
    else fnwLoop m classifier src rest off

/-- `first_non_whitespace` from `motion.rs`. -/
def first_non_whitespace (m : DisplaySnapshot) (displayLines : Bool) (src : DisplayPoint) :
    DisplayPoint :=
  let startOffset := m.offsetOf (start_of_line m displayLines src)
  let classifier := m.charClassifierAt src
  fnwLoop m classifier src (m.bufferCharsAt startOffset) startOffset

/-- The backward loop of `last_non_whitespace`. -/
def lnwLoop (m : DisplaySnapshot) (classifier : CharClassifier) :
    List (Char × Nat) → Nat → Nat
  | [], acc => acc
  | (ch, off) :: rest, acc =>
    if ch = '\n' then acc
    else if classifier.kind ch != CharKind.whitespace then off
    else lnwLoop m classifier rest off

/-- `last_non_whitespace` from `motion.rs`. -/
def last_non_whitespace (m : DisplaySnapshot) (src : DisplayPoint) (count : Nat) :
    DisplayPoint :=
  let endOfLine := m.offsetOf (end_of_line m false src count)
  let classifier := m.charClassifierAt src
  match (m.bufferCharsAt endOfLine).head? with
  | some cn =>
    if classifier.kind cn.1 != CharKind.whitespace then m.posOf endOfLine
    else m.posOf (lnwLoop m classifier (m.reverseBufferCharsAt endOfLine) endOfLine)
  | none => m.posOf (lnwLoop m classifier (m.reverseBufferCharsAt endOfLine) endOfLine)

/-- `next_line_start` from `motion.rs`. -/
def next_line_start (m : DisplaySnapshot) (p : DisplayPoint) (times : Nat) : DisplayPoint :=
  let correctLine := start_of_relative_buffer_row m p (times : Int)
  first_non_whitespace m false correctLine

/-- `previous_line_start` from `motion.rs`. -/
def previous_line_start (m : DisplaySnapshot) (p : DisplayPoint) (times : Nat) :
    DisplayPoint :=
  let correctLine := start_of_relative_buffer_row m p (-(times : Int))
  first_non_whitespace m false correctLine

/-- `go_to_column` from `motion.rs`. -/
def go_to_column (m : DisplaySnapshot) (p : DisplayPoint) (times : Nat) : DisplayPoint :=
  let correctLine := start_of_relative_buffer_row m p 0
  right m correctLine (times - 1)

/-- `next_line_end` from `motion.rs`. -/
def next_line_end (m : DisplaySnapshot) (p : DisplayPoint) (times : Nat) : DisplayPoint :=
  let p := if 1 < times then start_of_relative_buffer_row m p ((times : Int) - 1) else p
  end_of_line m false p 1

/-! ## Sentence and paragraph motions -/

/-- The loop of `next_non_blank`. -/
def nnbLoop : List (Char × Nat) → Nat → Nat
  | [], dflt => dflt
  | (c, o) :: rest, dflt =>
    if c = '\n' ∨ ¬c.isWhitespace then o else nnbLoop rest dflt

/-- `next_non_blank` from `motion.rs`. -/
def next_non_blank (m : DisplaySnapshot) (start : Nat) : Nat :=
  nnbLoop (m.bufferCharsAt start) m.textLen

/-- The loop of `start_of_next_sentence`. -/
def sonsLoop : List (Char × Nat) → Bool → Nat → Option Nat
  | [], _, len => some len
  | (c, o) :: rest, seenSpace, len =>
    if ¬seenSpace ∧ (c = ')' ∨ c = ']' ∨ c = '"' ∨ c = '\'') then sonsLoop rest seenSpace len
    else if c = '\n' ∧ seenSpace then some o
    else if c.isWhitespace then sonsLoop rest true len
    else if seenSpace then some o
    else none

/-- `start_of_next_sentence` from `motion.rs`: given the offset just after
a `.`, `!` or `?`, the start of the next sentence, `none` when this is not
a sentence boundary. -/
def start_of_next_sentence (m : DisplaySnapshot) (endOfSentence : Nat) : Option Nat :=
  sonsLoop (m.bufferCharsAt endOfSentence) false m.textLen

/-- The reverse-scan loop of `sentence_backwards`. -/
def sbkLoop (m : DisplaySnapshot) : List (Char × Nat) → Nat → Bool → Nat → DisplayPoint
  | [], _, _, _ => ⟨0, 0⟩
  | (ch, off) :: rest, start, wasNewline, times =>
    let sons : Option Nat :=
      if wasNewline ∧ ch = '\n' then some (off + 1)
      else if ch = '\n' ∧ rest.head?.map (fun x => x.1) = some '\n' then
        some (next_non_blank m (off + 1))
      else if ch = '.' ∨ ch = '?' ∨ ch = '!' then start_of_next_sentence m (off + 1)
      else none
    match sons with
    | some s =>
      let times' := if s < start then times - 1 else times
      if times' = 0 ∨ off = 0 then m.clipPoint (m.posOf s) .left
      else
        let start' := if wasNewline then off else start
        sbkLoop m rest start' (ch = '\n') times'
    | none =>
      let start' := if wasNewline then off else start
      sbkLoop m rest start' (ch = '\n') times

/-- `sentence_backwards` from `motion.rs`. -/
def sentence_backwards (m : DisplaySnapshot) (p : DisplayPoint) (times : Nat) :
    DisplayPoint :=
  let start := m.offsetOf p
  let wasNewline := (m.bufferCharsAt start).head?.map (fun x => x.1) = some '\n'
  sbkLoop m (m.reverseBufferCharsAt start) start (decide wasNewline) times

/-- The forward-scan loop of `sentence_forwards`. -/
def sfwLoop (m : DisplaySnapshot) : List (Char × Nat) → Bool → Nat → DisplayPoint
  | [], _, _ => m.maxPoint
  | (ch, off) :: rest, wasNewline, times =>
    if wasNewline ∧ ch = '\n' then sfwLoop m rest wasNewline times
    else
      let sons : Option Nat :=
        if wasNewline then some (next_non_blank m off)
        else if ch = '\n' ∧ rest.head?.map (fun x => x.1) = some '\n' then
          some (next_non_blank m (off + 1))
        else if ch = '.' ∨ ch = '?' ∨ ch = '!' then start_of_next_sentence m (off + 1)
        else none
      let wasNewline' := decide (ch = '\n' ∧ rest.head?.map (fun x => x.1) = some '\n')
      match sons with
      | some s =>
        let times' := times - 1
        if times' = 0 then m.clipPoint (m.posOf s) .right
        else sfwLoop m rest wasNewline' times'
      | none => sfwLoop m rest wasNewline' times

/-- `sentence_forwards` from `motion.rs`. -/
def sentence_forwards (m : DisplaySnapshot) (p : DisplayPoint) (times : Nat) :
    DisplayPoint :=
  let start := m.offsetOf p
  let wasNewline := (m.reverseBufferCharsAt start).head?.map (fun x => x.1) = some '\n'
    ∧ (m.bufferCharsAt start).head?.map (fun x => x.1) = some '\n'
  sfwLoop m (m.bufferCharsAt start) (decide wasNewline) times

/-- Whether a row is blank. -/
def blankRow (m : DisplaySnapshot) (r : Nat) : Bool :=
  m.lineLen r = 0

/-- Modelled from the spec: the upward blank-line-run scan behind
`movement::start_of_paragraph` — walk up past the current paragraph to the
previous blank line (or the buffer start). -/
def paraUp (m : DisplaySnapshot) : Nat → Bool → Nat
  | 0, _ => 0
  | r + 1, seenNonBlank =>
    if blankRow m r then
      if seenNonBlank then r else paraUp m r seenNonBlank
    else paraUp m r true

/-- Modelled from the spec: the downward blank-line-run scan behind
`movement::end_of_paragraph`. -/
def paraDownAux (m : DisplaySnapshot) : Nat → Nat → Bool → Nat
  | 0, r, _ => r
  | fuel + 1, r, seenNonBlank =>
    if r < m.maxRow then
      let nr := r + 1
      if blankRow m nr then
        if seenNonBlank then nr else paraDownAux m fuel nr seenNonBlank
      else paraDownAux m fuel nr true
    else r

/-- Modelled from the spec: `movement::start_of_paragraph` — `times` blank
-line-run boundaries upward, landing at column 0. -/
def startOfParagraphMotion (m : DisplaySnapshot) : DisplayPoint → Nat → DisplayPoint
  | p, 0 => p
  | p, times + 1 => startOfParagraphMotion m ⟨paraUp m p.row false, 0⟩ times

/-- Modelled from the spec: `movement::end_of_paragraph` — `times`
blank-line-run boundaries downward, landing at column 0. -/
def endOfParagraphMotion (m : DisplaySnapshot) : DisplayPoint → Nat → DisplayPoint
  | p, 0 => p
  | p, times + 1 => endOfParagraphMotion m ⟨paraDownAux m (m.maxRow + 1) p.row false, 0⟩ times

/-! ## Document motions (`motion.rs`) -/

/-- `go_to_line` from `motion.rs`.  Modelled from the spec over a single
sub-buffer: the excerpt always contains the clipped offset, so the
multi-excerpt fallback paths collapse to the clipped position.  (The
source computes `(line - 1) as u32` on a `usize`, which underflows for
`line = 0`; the model uses truncated subtraction, and no claim evaluates
this path at 0.) -/
def go_to_line (m : DisplaySnapshot) (dp : DisplayPoint) (line : Nat) : DisplayPoint :=
  let point := dp
  let target := m.clipPoint ⟨line - 1, point.col⟩ .left
  m.clipPoint target .left

/-- `start_of_document` from `motion.rs`. -/
def start_of_document (m : DisplaySnapshot) (dp : DisplayPoint)
    (maybeTimes : Option Nat) : DisplayPoint :=
  match maybeTimes with
  | some times => go_to_line m dp times
  | none =>
    let point := dp
    let firstPoint : DisplayPoint := ⟨0, point.col⟩
    m.clipPoint (m.clipPoint firstPoint .left) .left

/-- `end_of_document` from `motion.rs`. -/
def end_of_document (m : DisplaySnapshot) (dp : DisplayPoint)
    (maybeTimes : Option Nat) : DisplayPoint :=
  match maybeTimes with
  | some times => go_to_line m dp times
  | none =>
    let point := dp
    let lastPoint : DisplayPoint := ⟨m.maxPoint.row, point.col⟩
    m.clipPoint (m.clipPoint lastPoint .left) .left

/-! ## Bracket matching (`motion.rs`) -/

/-- Modelled from the spec: `object::surrounding_html_tag` — markup-tag
structure is not represented in this plain-text model, so no surrounding
tag is ever located. -/
def surroundingHtmlTag (_m : DisplaySnapshot) (_hd : DisplayPoint)
    (_aroundTag : Bool) : Option (DisplayPoint × DisplayPoint) :=
  none

/-- `matching_tag` from `motion.rs`: both surrounding-tag queries must
succeed before any jump; in this model they never do, and the remainder of
the source operates on the ranges they would have produced. -/
def matching_tag (m : DisplaySnapshot) (hd : DisplayPoint) : Option DisplayPoint := do
  let _inner ← surroundingHtmlTag m hd false
  let _outer ← surroundingHtmlTag m hd true
  none

/-- The candidate bookkeeping of one pair in `matching`'s loop: the two
`if distance < closest_distance` updates. -/
def pairStep (offset : Nat) (lineRange : Nat × Nat) (openR closeR : Nat × Nat)
    (best : Option Nat) (bestDist : Nat) : Option Nat × Nat :=
  if ((openR.1 ≤ offset ∧ offset < openR.2) ∨ offset ≤ openR.1)
      ∧ (lineRange.1 ≤ openR.1 ∧ openR.1 < lineRange.2)
      ∧ openR.1 - offset < bestDist then
    (some closeR.1, openR.1 - offset)
  else if ((closeR.1 ≤ offset ∧ offset < closeR.2) ∨ offset ≤ closeR.1)
      ∧ (lineRange.1 ≤ closeR.1 ∧ closeR.1 < lineRange.2)
      ∧ closeR.1 - offset < bestDist then
    (some openR.1, closeR.1 - offset)
  else (best, bestDist)

/-- The pair loop of `matching`: `.inl` is an early `return` of the
markup-tag special case, `.inr` the final `closest_pair_destination`. -/
def matchLoop (m : DisplaySnapshot) (displayPoint : DisplayPoint) (offset : Nat)
    (lineRange : Nat × Nat) :
    List ((Nat × Nat) × (Nat × Nat)) → Option Nat → Nat → DisplayPoint ⊕ Option Nat
  | [], best, _ => .inr best
  | pr :: rest, best, bestDist =>
    let openR := pr.1
    let closeR := pr.2
    if m.charAt openR.1 = '<' then
      if openR.1 < offset ∧ offset < closeR.1 then
        if m.charAt closeR.1 = '/' ∧ m.charAt (closeR.1 + 1) = '>' then .inl displayPoint
        else
          match matching_tag m displayPoint with
          | some tag => .inl tag
          | none =>
            let st := pairStep offset lineRange openR closeR best bestDist
            matchLoop m displayPoint offset lineRange rest st.1 st.2
      else if closeR.1 ≤ offset ∧ offset < closeR.2 then .inl (m.posOf openR.1)
      else if openR.1 ≤ offset ∧ offset < openR.2 then .inl (m.posOf (closeR.2 - 1))
      else
        let st := pairStep offset lineRange openR closeR best bestDist
        matchLoop m displayPoint offset lineRange rest st.1 st.2
    else
      let st := pairStep offset lineRange openR closeR best bestDist
      matchLoop m displayPoint offset lineRange rest st.1 st.2

/-- `matching` from `motion.rs`. -/
def matching (m : DisplaySnapshot) (dp : DisplayPoint) : DisplayPoint :=
  let displayPoint := m.clipAtLineEnd dp
  let point := displayPoint
  let offset := m.offsetOf point
  let lineEnd0 := (m.nextLineBoundary point).1
  let lineEnd := if lineEnd0 = point then m.maxPoint else lineEnd0
  let lineRangeStart := (m.prevLineBoundary point).1
  match m.brackets with
  | some ranges =>
    let lineRange : Nat × Nat := (m.offsetOf lineRangeStart, m.offsetOf lineEnd)
    match matchLoop m displayPoint offset lineRange ranges none (2 ^ 64 - 1) with
    | .inl early => early
    | .inr best =>
      match best with
      | some destination => m.posOf destination
      | none => displayPoint
  | none => displayPoint

/-- Modelled from the spec: `enclosing_bracket_ranges` — the pairs of the
snapshot's bracket query whose whole span encloses the point. -/
def DisplaySnapshot.enclosingBracketRanges (m : DisplaySnapshot) (p : DisplayPoint) :
    Option (List ((Nat × Nat) × (Nat × Nat))) :=
  m.brackets.map (List.filter
    (fun pr => decide (pr.1.1 ≤ m.offsetOf p ∧ m.offsetOf p < pr.2.2)))

/-- The pair loop of `unmatched_forward`. -/
def ufLoop (m : DisplaySnapshot) (ch : Char) (offset : Nat) :
    List ((Nat × Nat) × (Nat × Nat)) → Option Nat → Nat → Option Nat
  | [], best, _ => best
  | pr :: rest, best, bestDist =>
    let c := pr.2
    if offset < c.1 ∧ m.charAt c.1 = ch ∧ c.1 - offset < bestDist then
      ufLoop m ch offset rest (some c.1) (c.1 - offset)
    else ufLoop m ch offset rest best bestDist

/-- `unmatched_forward` from `motion.rs`. -/
def unmatched_forward (m : DisplaySnapshot) : DisplayPoint → Char → Nat → DisplayPoint
  | dp, _, 0 => dp
  | dp, ch, times + 1 =>
    let offset := m.offsetOf dp
    match m.enclosingBracketRanges dp with
    | none => dp
    | some ranges =>
      let best := ufLoop m ch offset ranges none (2 ^ 64 - 1)
      let newPoint := (best.map m.posOf).getD dp
      if newPoint = dp then dp else unmatched_forward m newPoint ch times

/-- The pair loop of `unmatched_backward`. -/
def ubLoop (m : DisplaySnapshot) (ch : Char) (offset : Nat) :
    List ((Nat × Nat) × (Nat × Nat)) → Option Nat → Nat → Option Nat
  | [], best, _ => best
  | pr :: rest, best, bestDist =>
    let o := pr.1
    if o.1 < offset ∧ m.charAt o.1 = ch ∧ offset - o.1 < bestDist then
      ubLoop m ch offset rest (some o.1) (offset - o.1)
    else ubLoop m ch offset rest best bestDist

/-- `unmatched_backward` from `motion.rs`. -/
def unmatched_backward (m : DisplaySnapshot) : DisplayPoint → Char → Nat → DisplayPoint
  | dp, _, 0 => dp
  | dp, ch, times + 1 =>
    let offset := m.offsetOf dp
    match m.enclosingBracketRanges dp with
    | none => dp
    | some ranges =>
      let best := ubLoop m ch offset ranges none (2 ^ 64 - 1)
      let newPoint := (best.map m.posOf).getD dp
      if newPoint = dp then dp else unmatched_backward m newPoint ch times

/-! ## Viewport-relative motions (`motion.rs`) -/

/-- `window_top` from `motion.rs`. -/
def window_top (m : DisplaySnapshot) (p : DisplayPoint) (tld : TextLayoutDetails)
    (times0 : Nat) : DisplayPoint × SelectionGoal :=
  let firstVisibleLine := tld.scrollAnchor
  let times := if firstVisibleLine.row ≠ 0 ∧ times0 < tld.verticalScrollMargin then
    tld.verticalScrollMargin else times0
  match tld.visibleRows with
  | some visibleRows =>
    let bottomRow := firstVisibleLine.row + visibleRows
    let newRow := min (min (firstVisibleLine.row + times) bottomRow) m.maxPoint.row
    let newCol := min p.col (m.lineLen firstVisibleLine.row)
    (m.clipPoint ⟨newRow, newCol⟩ .left, .none)
  | none =>
    let newRow := min (firstVisibleLine.row + times) m.maxPoint.row
    let newCol := min p.col (m.lineLen firstVisibleLine.row)
    (m.clipPoint ⟨newRow, newCol⟩ .left, .none)

/-- `window_middle` from `motion.rs`. -/
def window_middle (m : DisplaySnapshot) (p : DisplayPoint) (tld : TextLayoutDetails) :
    DisplayPoint × SelectionGoal :=
  match tld.visibleRows with
  | some visibleRows =>
    let firstVisibleLine := tld.scrollAnchor
    let maxVisibleRows := min visibleRows (m.maxPoint.row - firstVisibleLine.row)
    let newRow := min (firstVisibleLine.row + maxVisibleRows / 2) m.maxPoint.row
    let newCol := min p.col (m.lineLen newRow)
    (m.clipPoint ⟨newRow, newCol⟩ .left, .none)
  | none => (p, .none)

/-- `window_bottom` from `motion.rs`.  The float expression
`(visible_rows + offset.y - 1.).floor() as u32` is modelled with truncated
natural subtraction (the saturating float-to-int cast sends negative values
to 0, as truncated subtraction does). -/
def window_bottom (m : DisplaySnapshot) (p : DisplayPoint) (tld : TextLayoutDetails)
    (times0 : Nat) : DisplayPoint × SelectionGoal :=
  match tld.visibleRows with
  | some visibleRows =>
    let firstVisibleLine := tld.scrollAnchor
    let bottomRow := firstVisibleLine.row + (visibleRows + tld.scrollOffsetY - 1)
    let times := if bottomRow < m.maxPoint.row ∧ times0 < tld.verticalScrollMargin then
      tld.verticalScrollMargin else times0
    let bottomRowCapped := min bottomRow m.maxPoint.row
    let newRow := if bottomRowCapped - times < firstVisibleLine.row then firstVisibleLine.row
      else bottomRowCapped - times
    let newCol := min p.col (m.lineLen newRow)
    (m.clipPoint ⟨newRow, newCol⟩ .left, .none)
  | none => (p, .none)

/-! ## Structural motions and jumps -/

/-- Search direction for structural motions. -/
inductive Direction where
  | next
  | prev
deriving DecidableEq, Repr

/-- Modelled from the spec: `method_motion` — locates the nearest
function-like construct via a structural-object query; this plain-text
model carries no structural objects, and per the spec a structural motion
that finds no construct is a no-op at the current position. -/
def method_motion (_m : DisplaySnapshot) (dp : DisplayPoint) (_times : Nat)
    (_dir : Direction) (_isStart : Bool) : DisplayPoint :=
  dp

/-- Modelled from the spec: `section_motion` — as `method_motion`, for
class-like sections. -/
def section_motion (_m : DisplaySnapshot) (dp : DisplayPoint) (_times : Nat)
    (_dir : Direction) (_isStart : Bool) : DisplayPoint :=
  dp

/-- Modelled from the spec: `comment_motion` — as `method_motion`, for
comment blocks. -/
def comment_motion (_m : DisplaySnapshot) (dp : DisplayPoint) (_times : Nat)
    (_dir : Direction) : DisplayPoint :=
  dp

/-- Modelled from the spec: `mark::jump_motion` — an externally resolved
jump to a stored anchor; a linewise jump lands on the first non-whitespace
character of the anchor's line. -/
def jump_motion (m : DisplaySnapshot) (anchor : DisplayPoint) (line : Bool) :
    DisplayPoint × SelectionGoal :=
  let p := m.clipPoint anchor .left
  if line then (first_non_whitespace m false p, .none) else (p, .none)

/-! ## The `Motion` enum and its classification tables (`motion.rs`) -/

/-- The `Motion` enum of `motion.rs`.  Anchors are modelled as display
points; `ZedSearchResult` carries lists of (start, stop) anchor ranges. -/
inductive Motion where
  | left
  | backspace
  | down (displayLines : Bool)
  | up (displayLines : Bool)
  | right
  | space
  | nextWordStart (ignorePunctuation : Bool)
  | nextWordEnd (ignorePunctuation : Bool)
  | previousWordStart (ignorePunctuation : Bool)
  | previousWordEnd (ignorePunctuation : Bool)
  | nextSubwordStart (ignorePunctuation : Bool)
  | nextSubwordEnd (ignorePunctuation : Bool)
  | previousSubwordStart (ignorePunctuation : Bool)
  | previousSubwordEnd (ignorePunctuation : Bool)
  | firstNonWhitespace (displayLines : Bool)
  | currentLine
  | startOfLine (displayLines : Bool)
  | endOfLine (displayLines : Bool)
  | sentenceBackward
  | sentenceForward
  | startOfParagraph
  | endOfParagraph
  | startOfDocument
  | endOfDocument
  | matching
  | unmatchedForward (ch : Char)
  | unmatchedBackward (ch : Char)
  | findForward (before : Bool) (ch : Char) (mode : FindRange) (smartcase : Bool)
  | findBackward (after : Bool) (ch : Char) (mode : FindRange) (smartcase : Bool)
  | sneak (firstChar : Char) (secondChar : Char) (smartcase : Bool)
  | sneakBackward (firstChar : Char) (secondChar : Char) (smartcase : Bool)
  | repeatFind (lastFind : Motion)
  | repeatFindReversed (lastFind : Motion)
  | nextLineStart
  | previousLineStart
  | startOfLineDownward
  | endOfLineDownward
  | goToColumn
  | windowTop
  | windowMiddle
  | windowBottom
  | nextSectionStart
  | nextSectionEnd
  | previousSectionStart
  | previousSectionEnd
  | nextMethodStart
  | nextMethodEnd
  | previousMethodStart
  | previousMethodEnd
  | nextComment
  | previousComment
  | zedSearchResult (priorSelections newSelections : List (DisplayPoint × DisplayPoint))
  | jump (anchor : DisplayPoint) (line : Bool)

/-- Whether the motion is `Backspace` (the `self != &Motion::Backspace` test
of `Motion::range`); gives the decidability of that test without a full
derived equality on the 53-variant enum. -/
def Motion.isBackspace : Motion → Bool
  | .backspace => true
  | _ => false

instance (m : Motion) : Decidable (m = Motion.backspace) :=
  decidable_of_iff (m.isBackspace = true) (by cases m <;> simp [Motion.isBackspace])

/-- `Motion::linewise` from `motion.rs` (exhaustive per-variant table). -/
def Motion.linewise : Motion → Bool
  | .down _ | .up _ | .startOfDocument | .endOfDocument | .currentLine
  | .nextLineStart | .previousLineStart | .startOfLineDownward
  | .startOfParagraph | .endOfParagraph
  | .windowTop | .windowMiddle | .windowBottom
  | .nextSectionStart | .nextSectionEnd | .previousSectionStart | .previousSectionEnd
  | .nextMethodStart | .nextMethodEnd | .previousMethodStart | .previousMethodEnd
  | .nextComment | .previousComment => true
  | .jump _ line => line
  | .endOfLine _ | .matching | .unmatchedForward _ | .unmatchedBackward _
  | .findForward _ _ _ _ | .left | .backspace | .right
  | .sentenceBackward | .sentenceForward | .space
  | .startOfLine _ | .endOfLineDownward | .goToColumn
  | .nextWordStart _ | .nextWordEnd _ | .previousWordStart _ | .previousWordEnd _
  | .nextSubwordStart _ | .nextSubwordEnd _ | .previousSubwordStart _ | .previousSubwordEnd _
  | .firstNonWhitespace _ | .findBackward _ _ _ _ | .sneak _ _ _ | .sneakBackward _ _ _
  | .repeatFind _ | .repeatFindReversed _ | .zedSearchResult _ _ => false

/-- `Motion::infallible` from `motion.rs` (exhaustive per-variant table). -/
def Motion.infallible : Motion → Bool
  | .startOfDocument | .endOfDocument | .currentLine => true
  | .down _ | .up _ | .endOfLine _ | .matching
  | .unmatchedForward _ | .unmatchedBackward _
  | .findForward _ _ _ _ | .repeatFind _
  | .left | .backspace | .right | .space
  | .startOfLine _ | .startOfParagraph | .endOfParagraph
  | .sentenceBackward | .sentenceForward
  | .startOfLineDownward | .endOfLineDownward | .goToColumn
  | .nextWordStart _ | .nextWordEnd _ | .previousWordStart _ | .previousWordEnd _
  | .nextSubwordStart _ | .nextSubwordEnd _ | .previousSubwordStart _ | .previousSubwordEnd _
  | .firstNonWhitespace _ | .findBackward _ _ _ _ | .sneak _ _ _ | .sneakBackward _ _ _
  | .repeatFindReversed _ | .windowTop | .windowMiddle | .windowBottom
  | .nextLineStart | .previousLineStart | .zedSearchResult _ _
  | .nextSectionStart | .nextSectionEnd | .previousSectionStart | .previousSectionEnd
  | .nextMethodStart | .nextMethodEnd | .previousMethodStart | .previousMethodEnd
  | .nextComment | .previousComment | .jump _ _ => false

/-- `Motion::inclusive` from `motion.rs` (exhaustive per-variant table;
`RepeatFind`/`RepeatFindReversed` defer to the stored motion). -/
def Motion.inclusive : Motion → Bool
  | .down _ | .up _ | .startOfDocument | .endOfDocument | .currentLine
  | .endOfLine _ | .endOfLineDownward | .matching
  | .unmatchedForward _ | .unmatchedBackward _
  | .findForward _ _ _ _
  | .windowTop | .windowMiddle | .windowBottom
  | .nextWordEnd _ | .previousWordEnd _ | .nextSubwordEnd _ | .previousSubwordEnd _
  | .nextLineStart | .previousLineStart => true
  | .left | .backspace | .right | .space
  | .startOfLine _ | .startOfLineDownward
  | .startOfParagraph | .endOfParagraph
  | .sentenceBackward | .sentenceForward
  | .goToColumn
  | .nextWordStart _ | .previousWordStart _ | .nextSubwordStart _ | .previousSubwordStart _
  | .firstNonWhitespace _ | .findBackward _ _ _ _ | .sneak _ _ _ | .sneakBackward _ _ _
  | .jump _ _
  | .nextSectionStart | .nextSectionEnd | .previousSectionStart | .previousSectionEnd
  | .nextMethodStart | .nextMethodEnd | .previousMethodStart | .previousMethodEnd
  | .nextComment | .previousComment
  | .zedSearchResult _ _ => false
  | .repeatFind lastFind => lastFind.inclusive
  | .repeatFindReversed lastFind => lastFind.inclusive

/-- `anchor.to_display_point(map)` for modelled anchors. -/
def toDisplayPoint (m : DisplaySnapshot) (a : DisplayPoint) : DisplayPoint :=
  m.clipPoint a .left

/-- The outcome of the big `match` inside `Motion::move_point`: arms that
`return` directly are `ret`, arms that fall through to the shared
no-progress check at the bottom are `fall`. -/
inductive MoveOutcome where
  | ret (o : Option (DisplayPoint × SelectionGoal))
  | fall (np : DisplayPoint) (g : SelectionGoal)
deriving DecidableEq, Repr

/-- The dispatching `match` of `Motion::move_point` from `motion.rs`.
`usize` subtractions (`times - 1`) are modelled truncated; no claim
evaluates them where the source would underflow. -/
def move_point_inner (self : Motion) (map : DisplaySnapshot) (point : DisplayPoint)
    (goal : SelectionGoal) (maybeTimes : Option Nat) (tld : TextLayoutDetails) :
    MoveOutcome :=
  let times := maybeTimes.getD 1
  match self with
  | .left => .fall (left map point times) .none
  | .backspace => .fall (backspace map point times) .none
  | .down false =>
    let r := up_down_buffer_rows map point goal (times : Int) tld
    .fall r.1 r.2
  | .down true =>
    let r := down_display map tld point goal times
    .fall r.1 r.2
  | .up false =>
    let r := up_down_buffer_rows map point goal (0 - (times : Int)) tld
    .fall r.1 r.2
  | .up true =>
    let r := up_display map tld point goal times
    .fall r.1 r.2
  | .right => .fall (right map point times) .none
  | .space => .fall (space map point times) .none
  | .nextWordStart ip => .fall (next_word_start map point ip times) .none
  | .nextWordEnd ip => .fall (next_word_end map point ip times true) .none
  | .previousWordStart ip => .fall (previous_word_start map point ip times) .none
  | .previousWordEnd ip => .fall (previous_word_end map point ip times) .none
  | .nextSubwordStart ip => .fall (next_subword_start map point ip times) .none
  | .nextSubwordEnd ip => .fall (next_subword_end map point ip times true) .none
  | .previousSubwordStart ip => .fall (previous_subword_start map point ip times) .none
  | .previousSubwordEnd ip => .fall (previous_subword_end map point ip times) .none
  | .firstNonWhitespace dl => .fall (first_non_whitespace map dl point) .none
  | .startOfLine dl => .fall (start_of_line map dl point) .none
  | .endOfLine dl => .fall (end_of_line map dl point times) .none
  | .sentenceBackward => .fall (sentence_backwards map point times) .none
  | .sentenceForward => .fall (sentence_forwards map point times) .none
  | .startOfParagraph => .fall (startOfParagraphMotion map point times) .none
  | .endOfParagraph => .fall (map.clipAtLineEnd (endOfParagraphMotion map point times)) .none
  | .currentLine => .fall (next_line_end map point times) .none
  | .startOfDocument => .fall (start_of_document map point maybeTimes) .none
  | .endOfDocument => .fall (end_of_document map point maybeTimes) .none
  | .matching => .fall (matching map point) .none
  | .unmatchedForward ch => .fall (unmatched_forward map point ch times) .none
  | .unmatchedBackward ch => .fall (unmatched_backward map point ch times) .none
  | .findForward before ch mode smartcase =>
    .ret ((find_forward map point before ch times mode smartcase).map (fun np => (np, .none)))
  | .findBackward after ch mode smartcase =>
    .fall (find_backward map point after ch times mode smartcase) .none
  | .sneak c1 c2 smartcase =>
    .ret ((sneak map point c1 c2 times smartcase).map (fun np => (np, .none)))
  | .sneakBackward c1 c2 smartcase =>
    .ret ((sneak_backward map point c1 c2 times smartcase).map (fun np => (np, .none)))
  | .repeatFind lastFind =>
    match lastFind with
    | .findForward before ch mode smartcase =>
      let np0 := find_forward map point before ch times mode smartcase
      let np := if np0 = some point then find_forward map point before ch (times + 1) mode smartcase
        else np0
      .ret (np.map (fun q => (q, .none)))
    | .findBackward after ch mode smartcase =>
      let np0 := find_backward map point after ch times mode smartcase
      let np := if np0 = point then find_backward map point after ch (times + 1) mode smartcase
        else np0
      .fall np .none
    | .sneak c1 c2 smartcase =>
      let np0 := sneak map point c1 c2 times smartcase
      let np := if np0 = some point then sneak map point c1 c2 (times + 1) smartcase else np0
      .ret (np.map (fun q => (q, .none)))
    | .sneakBackward c1 c2 smartcase =>
      let np0 := sneak_backward map point c1 c2 times smartcase
      let np := if np0 = some point then sneak_backward map point c1 c2 (times + 1) smartcase
        else np0
      .ret (np.map (fun q => (q, .none)))
    | _ => .ret none
  | .repeatFindReversed lastFind =>
    match lastFind with
    | .findForward before ch mode smartcase =>
      let np0 := find_backward map point before ch times mode smartcase
      let np := if np0 = point then find_backward map point before ch (times + 1) mode smartcase
        else np0
      .fall np .none
    | .findBackward after ch mode smartcase =>
      let np0 := find_forward map point after ch times mode smartcase
      let np := if np0 = some point then find_forward map point after ch (times + 1) mode smartcase
        else np0
      .ret (np.map (fun q => (q, .none)))
    | .sneak c1 c2 smartcase =>
      let np0 := sneak_backward map point c1 c2 times smartcase
      let np := if np0 = some point then sneak_backward map point c1 c2 (times + 1) smartcase
        else np0
      .ret (np.map (fun q => (q, .none)))
    | .sneakBackward c1 c2 smartcase =>
      let np0 := sneak map point c1 c2 times smartcase
      let np := if np0 = some point then sneak map point c1 c2 (times + 1) smartcase else np0
      .ret (np.map (fun q => (q, .none)))
    | _ => .ret none
  | .nextLineStart => .fall (next_line_start map point times) .none
  | .previousLineStart => .fall (previous_line_start map point times) .none
  | .startOfLineDownward => .fall (next_line_start map point (times - 1)) .none
  | .endOfLineDownward => .fall (last_non_whitespace map point times) .none
  | .goToColumn => .fall (go_to_column map point times) .none
  | .windowTop =>
    let r := window_top map point tld (times - 1)
    .fall r.1 r.2
  | .windowMiddle =>
    let r := window_middle map point tld
    .fall r.1 r.2
  | .windowBottom =>
    let r := window_bottom map point tld (times - 1)
    .fall r.1 r.2
  | .jump anchor line =>
    let r := jump_motion map anchor line
    .fall r.1 r.2
  | .zedSearchResult _priorSelections newSelections =>
    match newSelections.head? with
    | some newSelection => .fall (toDisplayPoint map newSelection.1) .none
    | none => .ret none
  | .nextSectionStart => .fall (section_motion map point times .next true) .none
  | .nextSectionEnd => .fall (section_motion map point times .next false) .none
  | .previousSectionStart => .fall (section_motion map point times .prev true) .none
  | .previousSectionEnd => .fall (section_motion map point times .prev false) .none
  | .nextMethodStart => .fall (method_motion map point times .next true) .none
  | .nextMethodEnd => .fall (method_motion map point times .next false) .none
  | .previousMethodStart => .fall (method_motion map point times .prev true) .none
  | .previousMethodEnd => .fall (method_motion map point times .prev false) .none
  | .nextComment => .fall (comment_motion map point times .next) .none
  | .previousComment => .fall (comment_motion map point times .prev) .none

/-- `Motion::move_point` from `motion.rs`: the dispatch above followed by
the shared no-progress check
`(new_point != point || infallible).then_some(...)`. -/
def move_point (self : Motion) (map : DisplaySnapshot) (point : DisplayPoint)
    (goal : SelectionGoal) (maybeTimes : Option Nat) (tld : TextLayoutDetails) :
    Option (DisplayPoint × SelectionGoal) :=
  match move_point_inner self map point goal maybeTimes tld with
  | .ret o => o
  | .fall np g => if np ≠ point ∨ self.infallible then some (np, g) else none

/-- Whether the motion is `NextWordStart { .. }` (the `if let` of
`Motion::range`). -/
def Motion.isNextWordStart : Motion → Bool
  | .nextWordStart _ => true
  | _ => false

/-- The non-search branch of `Motion::range` from `motion.rs`.  The result
is the pair (range start, range end). -/
def Motion.rangeAux (self : Motion) (map : DisplaySnapshot) (selection : Selection)
    (times : Option Nat) (expandToSurroundingNewline : Bool) (tld : TextLayoutDetails) :
    Option (DisplayPoint × DisplayPoint) :=
  match move_point self map selection.head selection.goal times tld with
  | none => none
  | some (newHead, goal) =>
    let selection := selection.setHead newHead goal
    if self.linewise then
      let selStart := (map.prevLineBoundary selection.start).2
      if expandToSurroundingNewline then
        if selection.stop.row < map.maxPoint.row then
          let stop1 := map.clipPoint ⟨selection.stop.row + 1, 0⟩ .right
          some (selStart, stop1)
        else if 0 < selStart.row then
          let selStart2 := map.clipPoint ⟨selStart.row - 1, map.lineLen (selStart.row - 1)⟩ .left
          some (selStart2, (map.nextLineBoundary selection.stop).2)
        else
          some (selStart, (map.nextLineBoundary selection.stop).2)
      else
        some (selStart, (map.nextLineBoundary selection.stop).2)
    else
      let selStop1 := if self.isNextWordStart ∧ selection.start.row < selection.stop.row then
          (⟨selection.start.row, map.lineLen selection.start.row⟩ : DisplayPoint)
        else selection.stop
      let inclusive0 := self.inclusive
      let corr := inclusive0 = false ∧ self ≠ .backspace
        ∧ selection.start.row < selStop1.row ∧ selStop1.col = 0
      let inclusive1 := if corr then true else inclusive0
      let selStop2 := if corr then
          map.clipPoint (map.nextLineBoundary ⟨selStop1.row - 1, 0⟩).2 .left
        else selStop1
      let selStop3 := if inclusive1 ∧ selStop2.col < map.lineLen selStop2.row then
          map.saturatingRight selStop2
        else selStop2
      some (selection.start, selStop3)

/-- `Motion::range` from `motion.rs`: the `ZedSearchResult` special case,
then the general path. -/
def Motion.range (self : Motion) (map : DisplaySnapshot) (selection : Selection)
    (times : Option Nat) (expandToSurroundingNewline : Bool) (tld : TextLayoutDetails) :
    Option (DisplayPoint × DisplayPoint) :=
  match self with
  | .zedSearchResult priorSelections newSelections =>
    match priorSelections.head?, newSelections.head? with
    | some priorSelection, some newSelection =>
      let s1 := toDisplayPoint map priorSelection.1
      let s2 := toDisplayPoint map newSelection.1
      let e1 := toDisplayPoint map newSelection.2
      let e2 := toDisplayPoint map priorSelection.2
      let s := if dpLt s2 s1 then s2 else s1
      let e := if dpLt e1 e2 then e2 else e1
      if dpLt s e then some (s, e) else some (e, s)
    | _, _ => none
  | _ => self.rangeAux map selection times expandToSurroundingNewline tld

/-! ## Basic lemmas about the model -/

lemma char_le_iff (a b : Char) : a ≤ b ↔ a.toNat ≤ b.toNat := Iff.rfl

lemma char_lt_iff (a b : Char) : a < b ↔ a.toNat < b.toNat := Iff.rfl

lemma char_eq_iff (a b : Char) : a = b ↔ a.toNat = b.toNat := by
  constructor
  · intro h; rw [h]
  · intro h; exact Char.eq_of_val_eq (UInt32.ext h)

lemma char_toNat_ofNat (n : Nat) (h : n < 55296) : (Char.ofNat n).toNat = n := by
  simp [Char.ofNat, Nat.isValidChar, h, Char.toNat, Char.ofNatAux]
  rfl

namespace DisplaySnapshot

lemma valid_pos_lines (m : DisplaySnapshot) (p : DisplayPoint) (h : m.Valid p) :
    0 < m.lines.length := by
  have := h.1
  omega

lemma row_le_maxRow (m : DisplaySnapshot) (p : DisplayPoint) (h : m.Valid p) :
    p.row ≤ m.maxRow := by
  have := h.1; unfold maxRow; omega

lemma clip_valid (m : DisplaySnapshot) (p : DisplayPoint) (b : Bias)
    (h : 0 < m.lines.length) : m.Valid (m.clipPoint p b) := by
  unfold Valid clipPoint maxRow
  dsimp only
  exact ⟨by omega, Nat.min_le_right _ _⟩

lemma clip_id (m : DisplaySnapshot) (p : DisplayPoint) (b : Bias) (h : m.Valid p) :
    m.clipPoint p b = p := by
  obtain ⟨h1, h2⟩ := h
  have hr : min p.row m.maxRow = p.row := by unfold maxRow; omega
  unfold clipPoint
  simp only [hr]
  have hc : min p.col (m.lineLen p.row) = p.col := Nat.min_eq_left h2
  cases p
  simp_all

lemma satLeft_spec (m : DisplaySnapshot) (p : DisplayPoint) (h : m.Valid p) :
    (m.saturatingLeft p).row = p.row ∧ (m.saturatingLeft p).col ≤ p.col ∧
      m.Valid (m.saturatingLeft p) := by
  have hv : m.Valid (⟨p.row, p.col - 1⟩ : DisplayPoint) := by
    refine ⟨h.1, ?_⟩
    have := h.2
    show p.col - 1 ≤ m.lineLen p.row
    omega
  unfold saturatingLeft
  rw [clip_id m _ _ hv]
  exact ⟨rfl, Nat.sub_le _ _, hv⟩

end DisplaySnapshot

/-! ## Concrete fixtures used by witnesses and counterexamples -/

/-- A one-line buffer `"xez"`. -/
def snapXez : DisplaySnapshot := ⟨[['x', 'e', 'z']], none⟩

/-- A one-line buffer `"abab"`. -/
def snapAbab : DisplaySnapshot := ⟨[['a', 'b', 'a', 'b']], none⟩

/-- A two-line buffer `"ab\ncd"`. -/
def snapAbCd : DisplaySnapshot := ⟨[['a', 'b'], ['c', 'd']], none⟩

/-- A three-line buffer `"ab\ncd\nef"`. -/
def snapAbCdEf : DisplaySnapshot := ⟨[['a', 'b'], ['c', 'd'], ['e', 'f']], none⟩

/-- A two-line buffer `"ax\nbz"`. -/
def snapAxBz : DisplaySnapshot := ⟨[['a', 'x'], ['b', 'z']], none⟩

/-- A one-line buffer `"a(b)c"` whose bracket query knows the pair at
offsets 1 and 3. -/
def snapParen : DisplaySnapshot := ⟨[['a', '(', 'b', ')', 'c']], some [((1, 2), (3, 4))]⟩

/-- A one-line buffer `"aabcc"` with one bracket pair whose delimiters are
the two-character ranges `aa` and `cc` (as for a multi-character delimiter
grammar such as triple-quoted strings). -/
def snapWide : DisplaySnapshot := ⟨[['a', 'a', 'b', 'c', 'c']], some [((0, 2), (3, 5))]⟩

/-- A layout context with unknown viewport height. -/
def tldNone : TextLayoutDetails := ⟨⟨0, 0⟩, 0, none, 0⟩

/-- A layout context with a known 10-row viewport. -/
def tldTen : TextLayoutDetails := ⟨⟨0, 0⟩, 0, some 10, 0⟩

/-! ## C5 — smartcase character matching -/

/-- C5: smartcase matching: with smartcase on, an uppercase target matches
only the identical candidate, a lowercase target matches exactly itself and
its uppercase form; with smartcase off, matching is exact equality. -/
theorem smartcase_match_spec (target other : Char) (smartcase : Bool) :
    (smartcase = true → isUppercaseChar target = true →
      (is_character_match target other smartcase = true ↔ other = target))
    ∧ (smartcase = true → isLowercaseChar target = true →
      (is_character_match target other smartcase = true ↔
        (other = target ∨ other = toAsciiUppercase target)))
    ∧ (smartcase = false →
      (is_character_match target other smartcase = true ↔ other = target)) := by
  have hta : ('a' : Char).toNat = 97 := by decide
  have htz : ('z' : Char).toNat = 122 := by decide
  have hA : ('A' : Char).toNat = 65 := by decide
  have hZ : ('Z' : Char).toNat = 90 := by decide
  refine ⟨?_, ?_, ?_⟩
  · intro hs hu
    subst hs
    unfold is_character_match
    rw [if_pos rfl, if_pos hu, beq_iff_eq]
    exact eq_comm
  · intro hs hl
    subst hs
    simp only [isLowercaseChar, decide_eq_true_eq, char_le_iff, hta, htz] at hl
    have hupT : isUppercaseChar target = false := by
      simp only [isUppercaseChar, decide_eq_false_iff_not, not_and, not_le, char_lt_iff, hA, hZ]
      omega
    unfold is_character_match
    rw [if_pos rfl, if_neg (by rw [hupT]; exact Bool.false_ne_true), beq_iff_eq]
    by_cases hou : 'A' ≤ other ∧ other ≤ 'Z'
    · have h1 : toAsciiLowercase other = Char.ofNat (other.toNat + 32) := if_pos hou
      obtain ⟨ho1, ho2⟩ := hou
      rw [char_le_iff, hA] at ho1
      rw [char_le_iff, hZ] at ho2
      have hon : other.toNat + 32 < 55296 := by omega
      have h2 : toAsciiUppercase target = Char.ofNat (target.toNat - 32) := by
        unfold toAsciiUppercase
        rw [if_pos]
        rw [char_le_iff, char_le_iff, hta, htz]
        omega
      rw [h1, h2, char_eq_iff, char_eq_iff, char_eq_iff, char_toNat_ofNat _ hon,
        char_toNat_ofNat _ (by omega)]
      constructor
      · intro h; right; omega
      · rintro (h | h) <;> omega
    · have h1 : toAsciiLowercase other = other := if_neg hou
      have h2 : toAsciiUppercase target = Char.ofNat (target.toNat - 32) := by
        unfold toAsciiUppercase
        rw [if_pos]
        rw [char_le_iff, char_le_iff, hta, htz]
        omega
      rw [h1, h2, eq_comm]
      constructor
      · intro h; left; exact h
      · rintro (h | h)
        · exact h
        · exfalso
          rw [char_eq_iff, char_toNat_ofNat _ (by omega)] at h
          rw [Decidable.not_and_iff_or_not] at hou
          rcases hou with hou | hou
          · rw [char_le_iff, hA] at hou
            omega
          · rw [char_le_iff, hZ] at hou
            omega
  · intro hs
    subst hs
    unfold is_character_match
    rw [if_neg Bool.false_ne_true, beq_iff_eq]
    exact eq_comm

/-- C5 witness: concrete instances of all three smartcase cases. -/
theorem smartcase_match_spec_witness :
    (is_character_match 'A' 'a' true = true ↔ 'a' = 'A')
    ∧ (is_character_match 'a' 'A' true = true ↔ ('A' = 'a' ∨ 'A' = toAsciiUppercase 'a')) := by
  refine ⟨?_, ?_⟩
  · exact (smartcase_match_spec 'A' 'a' true).1 rfl (by decide)
  · exact (smartcase_match_spec 'a' 'A' true).2.1 rfl (by decide)

/-! ## C7 — WindowMiddle without a known viewport height -/

/-- C7: when the layout context does not know the viewport height,
`window_middle` returns the input position unchanged (with no goal). -/
theorem window_middle_no_visible_rows (m : DisplaySnapshot) (p : DisplayPoint)
    (tld : TextLayoutDetails) (h : tld.visibleRows = none) :
    window_middle m p tld = (p, SelectionGoal.none) := by
  unfold window_middle
  rw [h]

/-- C7 witness. -/
theorem window_middle_no_visible_rows_witness :
    window_middle snapAbCd ⟨1, 1⟩ tldNone = (⟨1, 1⟩, SelectionGoal.none) :=
  window_middle_no_visible_rows snapAbCd ⟨1, 1⟩ tldNone rfl

/-! ## C9 — before-adjustment of find_forward skipped at column 0 -/

/-- C9: when a forward find (t-style, `before = true`) locates its target
at column 0 of a display row, the result is the match position itself: the
one-column backward adjustment applies only to matches at positive
columns.  Stated relationally: wherever the f-style search (`before =
false`) lands at column 0, the t-style search lands at the same point. -/
theorem find_forward_before_at_col_zero (m : DisplaySnapshot) (src : DisplayPoint)
    (target : Char) (times : Nat) (mode : FindRange) (smartcase : Bool) (q : DisplayPoint)
    (hf : find_forward m src false target times mode smartcase = some q)
    (hq : q.col = 0) :
    find_forward m src true target times mode smartcase = some q := by
  unfold find_forward at hf ⊢
  rcases hr : ffLoop m mode target smartcase src false times with ⟨pt, found⟩
  rw [hr] at hf
  cases found with
  | false => simp at hf
  | true =>
    simp only [if_true] at hf ⊢
    simp only [Bool.false_eq_true, if_neg, reduceIte] at hf
    injection hf with hf
    subst hf
    rw [if_neg]
    simp [hq]

/-- C9 witness: searching for `'b'` from `(0,0)` in `"ax\nbz"` finds the
match at column 0 of row 1, and the t-style search lands there too. -/
theorem find_forward_before_at_col_zero_witness :
    find_forward snapAxBz ⟨0, 0⟩ true 'b' 1 .multiLine false = some ⟨1, 0⟩ :=
  find_forward_before_at_col_zero snapAxBz ⟨0, 0⟩ 'b' 1 .multiLine false ⟨1, 0⟩
    (by decide) rfl

/-! ## C10 — Left stays on its display row -/

/-- C10 (with validity): `left` keeps the row, never increases the column,
and preserves validity. -/
lemma left_stays_aux (m : DisplaySnapshot) :
    ∀ (times : Nat) (p : DisplayPoint), m.Valid p →
      (left m p times).row = p.row ∧ (left m p times).col ≤ p.col ∧
        m.Valid (left m p times) := by
  intro times
  induction times with
  | zero => intro p h; exact ⟨rfl, Nat.le_refl _, h⟩
  | succ n ih =>
    intro p h
    obtain ⟨hrow, hcol, hval⟩ := m.satLeft_spec p h
    have hleft : left m p (n + 1) = if (m.saturatingLeft p).col = 0 then m.saturatingLeft p
      else left m (m.saturatingLeft p) n := rfl
    rw [hleft]
    by_cases hz : (m.saturatingLeft p).col = 0
    · rw [if_pos hz]
      exact ⟨hrow, hcol, hval⟩
    · rw [if_neg hz]
      obtain ⟨ir, ic, iv⟩ := ih (m.saturatingLeft p) hval
      exact ⟨ir.trans hrow, ic.trans hcol, iv⟩

/-- C10: for every valid starting point and every repeat count, the `Left`
motion stays on the starting display row and moves the column only
leftward (it saturates at column 0 instead of wrapping to the previous
line). -/
theorem left_never_leaves_row (m : DisplaySnapshot) (p : DisplayPoint) (times : Nat)
    (h : m.Valid p) :
    (left m p times).row = p.row ∧ (left m p times).col ≤ p.col :=
  ⟨(left_stays_aux m times p h).1, (left_stays_aux m times p h).2.1⟩

/-- C10 witness: five Lefts from `(0,2)` in `"xez"` stay on row 0. -/
theorem left_never_leaves_row_witness :
    (left snapXez ⟨0, 2⟩ 5).row = 0 ∧ (left snapXez ⟨0, 2⟩ 5).col ≤ 2 :=
  left_never_leaves_row snapXez ⟨0, 2⟩ 5 (by decide)

/-! ## C4 — count normalization -/

/-- C4 counterexample: an explicit count of 0 is not normalized to 1.
`Left` with count 0 makes no progress, so the fallible-motion check turns
it into a failure, while count 1 succeeds: the results differ. -/
theorem count_zero_not_normalized_cex :
    move_point .left snapAbCd ⟨0, 1⟩ .none (some 0) tldNone = none
    ∧ move_point .left snapAbCd ⟨0, 1⟩ .none (some 1) tldNone = some (⟨0, 0⟩, .none)
    ∧ move_point .left snapAbCd ⟨0, 1⟩ .none (some 0) tldNone ≠
        move_point .left snapAbCd ⟨0, 1⟩ .none (some 1) tldNone := by
  refine ⟨by decide, by decide, by decide⟩

/-- C4 (amended): for every motion other than `StartOfDocument` and
`EndOfDocument` (whose explicit count means "go to line"), an absent count
is normalized to 1: `move_point` with `None` equals `move_point` with an
explicit count of 1. -/
theorem absent_count_normalized_to_one (m : Motion) (map : DisplaySnapshot)
    (p : DisplayPoint) (g : SelectionGoal) (tld : TextLayoutDetails)
    (h1 : m ≠ .startOfDocument) (h2 : m ≠ .endOfDocument) :
    move_point m map p g none tld = move_point m map p g (some 1) tld := by
  have hinner : move_point_inner m map p g none tld =
      move_point_inner m map p g (some 1) tld := by
    cases m <;>
      first
      | rfl
      | exact absurd rfl h1
      | exact absurd rfl h2
      | (rename_i b
         cases b <;> rfl)
  unfold move_point
  rw [hinner]

/-- C4 witness. -/
theorem absent_count_normalized_to_one_witness :
    move_point .left snapAbCd ⟨0, 1⟩ .none none tldNone =
      move_point .left snapAbCd ⟨0, 1⟩ .none (some 1) tldNone :=
  absent_count_normalized_to_one .left snapAbCd ⟨0, 1⟩ .none tldNone
    (fun h => Motion.noConfusion h) (fun h => Motion.noConfusion h)

/-! ## C1 — failure iff fallible no-op -/

/-- C1 counterexample: `FindForward { before: true }` is fallible, yet a
successful search whose target sits at the very next column returns the
input position unchanged as a success: in `"xez"` with the cursor on `x`,
`t e` stays at `(0,0)` and still reports success. -/
theorem move_point_noop_guard_cex :
    Motion.infallible (.findForward true 'e' .multiLine false) = false
    ∧ move_point (.findForward true 'e' .multiLine false) snapXez ⟨0, 0⟩ .none
        (some 1) tldNone = some (⟨0, 0⟩, .none) := by
  refine ⟨by decide, by decide⟩

/-- A fall-through arm of an infallible motion always yields a position. -/
lemma move_point_fall_isSome (m : Motion) (map : DisplaySnapshot) (p : DisplayPoint)
    (g : SelectionGoal) (t : Option Nat) (tld : TextLayoutDetails) (np : DisplayPoint)
    (gg : SelectionGoal) (h : move_point_inner m map p g t tld = .fall np gg)
    (hi : m.infallible = true) : (move_point m map p g t tld).isSome = true := by
  unfold move_point
  rw [h, hi]
  simp

/-- C1 (amended): for every motion whose computation reaches the shared
no-progress check (every arm of `move_point` that does not return its
search result directly), `move_point` returns `None` exactly when the
motion is fallible and the computed destination equals the input position;
and every infallible motion always returns a position. -/
theorem move_point_failure_iff :
    (∀ (m : Motion) (map : DisplaySnapshot) (p : DisplayPoint) (g : SelectionGoal)
      (t : Option Nat) (tld : TextLayoutDetails) (np : DisplayPoint) (gg : SelectionGoal),
      move_point_inner m map p g t tld = .fall np gg →
        (move_point m map p g t tld = none ↔ (m.infallible = false ∧ np = p)))
    ∧ (∀ (m : Motion) (map : DisplaySnapshot) (p : DisplayPoint) (g : SelectionGoal)
      (t : Option Nat) (tld : TextLayoutDetails),
      m.infallible = true → (move_point m map p g t tld).isSome = true) := by
  constructor
  · intro m map p g t tld np gg h
    unfold move_point
    rw [h]
    by_cases hnp : np = p
    · by_cases hi : m.infallible = true
      · simp [hnp, hi]
      · simp only [Bool.not_eq_true] at hi
        simp [hnp, hi]
    · simp [hnp]
  · intro m map p g t tld h
    cases m <;>
      first
      | exact move_point_fall_isSome _ _ _ _ _ _ _ _ rfl h
      | exact absurd h (by simp [Motion.infallible])

/-- C1 witness: `Right` at the end of the buffer computes an unchanged
destination, and the equivalence reports exactly the fallible no-op
failure; `CurrentLine` (infallible) always returns a position. -/
theorem move_point_failure_iff_witness :
    (move_point .right snapXez ⟨0, 2⟩ .none (some 1) tldNone = none ↔
      (Motion.infallible .right = false ∧ right snapXez ⟨0, 2⟩ 1 = ⟨0, 2⟩))
    ∧ (move_point .currentLine snapXez ⟨0, 0⟩ .none none tldNone).isSome = true :=
  ⟨move_point_failure_iff.1 .right snapXez ⟨0, 2⟩ .none (some 1) tldNone
      (right snapXez ⟨0, 2⟩ 1) .none rfl,
    move_point_failure_iff.2 .currentLine snapXez ⟨0, 0⟩ .none none tldNone rfl⟩

/-! ## C3 — linewise ranges: counterexample -/

/-- C3 counterexample: a linewise range's end is the end-of-line position,
not column 0: `CurrentLine` over the single line `"ab"` yields the range
`(0,0)..(0,2)`, whose end column is the line length 2. -/
theorem linewise_range_end_col_cex :
    Motion.linewise .currentLine = true
    ∧ Motion.range .currentLine snapAbCd ⟨⟨0, 0⟩, ⟨0, 0⟩, false, .none⟩ none false tldNone =
        some (⟨0, 0⟩, ⟨0, 2⟩)
    ∧ ((⟨0, 2⟩ : DisplayPoint)).col ≠ 0 := by
  refine ⟨by decide, by decide, by decide⟩

/-! ## C6 — Matching round trip: counterexample -/

/-- C6 counterexample: with a bracket pair whose delimiters are wider than
one character (`aa` … `cc` in `"aabcc"`), starting on the second character
of the opening delimiter, `Matching` jumps to the start of the closing
delimiter and back to the start of the opening delimiter — not to the
original position. -/
theorem matching_involution_cex :
    matching snapWide ⟨0, 1⟩ = ⟨0, 3⟩
    ∧ matching snapWide (matching snapWide ⟨0, 1⟩) = ⟨0, 0⟩
    ∧ (⟨0, 0⟩ : DisplayPoint) ≠ ⟨0, 1⟩ := by
  refine ⟨by decide, by decide, by decide⟩

/-! ## C8 — Backspace skips the exclusive-to-inclusive correction -/

/-- C8: the exclusive-to-inclusive correction of `Motion::range` is never
applied to `Backspace`: when a Backspace motion lands the head at column 0
of a row strictly below the selection start, the returned range ends at
that very position (no conversion to an inclusive end on the previous
line, and no inclusive one-column extension). -/
theorem backspace_range_keeps_col_zero_end (map : DisplaySnapshot) (sel : Selection)
    (t : Option Nat) (expand : Bool) (tld : TextLayoutDetails) (p' : DisplayPoint)
    (g' : SelectionGoal)
    (hmv : move_point .backspace map sel.head sel.goal t tld = some (p', g'))
    (hrev : sel.reversed = false)
    (hlt : dpLt p' sel.start = false)
    (hrow : sel.start.row < p'.row)
    (hcol : p'.col = 0) :
    Motion.range .backspace map sel t expand tld = some (sel.start, p') := by
  have hred : Motion.range .backspace map sel t expand tld
      = Motion.rangeAux .backspace map sel t expand tld := rfl
  rw [hred]
  unfold Motion.rangeAux
  rw [hmv]
  have htail : sel.tail = sel.start := by
    unfold Selection.tail
    rw [hrev]
    simp
  have hset : sel.setHead p' g' = ⟨sel.start, p', false, g'⟩ := by
    unfold Selection.setHead
    rw [htail, hlt]
    simp
  dsimp only
  rw [hset]
  simp [Motion.linewise, Motion.isNextWordStart, Motion.inclusive]

/-- C8 witness: deleting backward from `(2,1)` in `"ab\ncd\nef"` lands at
`(2,0)`; the range for the operator is `(0,0)..(2,0)`, the end untouched. -/
theorem backspace_range_keeps_col_zero_end_witness :
    Motion.range .backspace snapAbCdEf ⟨⟨0, 0⟩, ⟨2, 1⟩, false, .none⟩ (some 1) false tldNone =
      some (⟨0, 0⟩, ⟨2, 0⟩) :=
  backspace_range_keeps_col_zero_end snapAbCdEf ⟨⟨0, 0⟩, ⟨2, 1⟩, false, .none⟩ (some 1)
    false tldNone ⟨2, 0⟩ .none (by decide) rfl (by decide) (by decide) rfl

/-! ## C3 — shape of linewise operator ranges -/

lemma dpLt_iff (a b : DisplayPoint) :
    dpLt a b = true ↔ (a.row < b.row ∨ (a.row = b.row ∧ a.col < b.col)) := by
  unfold dpLt
  simp [Nat.blt]
  omega

lemma setHead_row_le (sel : Selection) (h : DisplayPoint) (g : SelectionGoal) :
    (sel.setHead h g).start.row ≤ (sel.setHead h g).stop.row := by
  unfold Selection.setHead
  by_cases hd : dpLt h sel.tail = true
  · rw [if_pos hd]
    rcases (dpLt_iff _ _).mp hd with h1 | ⟨h1, _⟩ <;> simp <;> omega
  · rw [if_neg hd]
    simp only [dpLt_iff, not_or, not_and, not_lt] at hd
    simp
    omega

lemma range_eq_rangeAux (m : Motion) (map : DisplaySnapshot) (sel : Selection)
    (t : Option Nat) (expand : Bool) (tld : TextLayoutDetails) (hlw : m.linewise = true) :
    Motion.range m map sel t expand tld = Motion.rangeAux m map sel t expand tld := by
  cases m <;> first | rfl | simp [Motion.linewise] at hlw

/-- C3 (amended): a linewise range starts at column 0 of some line, except
that under `expand_to_surrounding_newline`, when the motion's end is on the
last buffer row, the start may be pulled back to the end of the preceding
line (column = line length).  Its end is the end-of-line position of its
row (column = line length) — not column 0 — except that under
`expand_to_surrounding_newline` with the end above the last row, the end is
column 0 of the following line.  The end row is always at least the start
row. -/
theorem linewise_range_shape (m : Motion) (map : DisplaySnapshot) (sel : Selection)
    (t : Option Nat) (expand : Bool) (tld : TextLayoutDetails)
    (r : DisplayPoint × DisplayPoint)
    (hlw : m.linewise = true)
    (hr : Motion.range m map sel t expand tld = some r) :
    (r.1.col = 0 ∨ (expand = true ∧ r.1.col = map.lineLen r.1.row))
    ∧ (r.2.col = map.lineLen r.2.row ∨ (expand = true ∧ r.2.col = 0))
    ∧ r.1.row ≤ r.2.row := by
  rw [range_eq_rangeAux m map sel t expand tld hlw] at hr
  unfold Motion.rangeAux at hr
  rcases hmv : move_point m map sel.head sel.goal t tld with _ | ⟨nh, g⟩
  · rw [hmv] at hr
    simp at hr
  · rw [hmv] at hr
    dsimp only at hr
    rw [hlw] at hr
    have hord := setHead_row_le sel nh g
    set sel2 := sel.setHead nh g with hsel2
    simp only [eq_self_iff_true, if_true] at hr
    simp only [DisplaySnapshot.prevLineBoundary, DisplaySnapshot.nextLineBoundary,
      DisplaySnapshot.clipPoint, DisplaySnapshot.maxPoint] at hr
    split_ifs at hr with hex hlt hpos
    · simp only [Option.some.injEq] at hr
      subst hr
      refine ⟨Or.inl rfl, Or.inr ⟨hex, ?_⟩, ?_⟩
      · show min 0 _ = 0
        simp
      · show min sel2.start.row map.maxRow ≤ min (sel2.stop.row + 1) map.maxRow
        simp only [DisplaySnapshot.maxPoint] at hlt
        omega
    · simp only [Option.some.injEq] at hr
      subst hr
      have hs : min (min sel2.start.row map.maxRow - 1) map.maxRow
          = min sel2.start.row map.maxRow - 1 := by omega
      refine ⟨Or.inr ⟨hex, ?_⟩, Or.inl rfl, ?_⟩
      · show min (map.lineLen (min sel2.start.row map.maxRow - 1))
          (map.lineLen (min (min sel2.start.row map.maxRow - 1) map.maxRow))
          = map.lineLen (min (min sel2.start.row map.maxRow - 1) map.maxRow)
        rw [hs]
        simp
      · show min (min sel2.start.row map.maxRow - 1) map.maxRow ≤ min sel2.stop.row map.maxRow
        omega
    · simp only [Option.some.injEq] at hr
      subst hr
      exact ⟨Or.inl rfl, Or.inl rfl, by show min _ _ ≤ min _ _; omega⟩
    · simp only [Option.some.injEq] at hr
      subst hr
      exact ⟨Or.inl rfl, Or.inl rfl, by show min _ _ ≤ min _ _; omega⟩

/-- C3 witness: the `CurrentLine` range over `"ab\ncd"` from `(0,0)`. -/
theorem linewise_range_shape_witness :
    (((⟨0, 0⟩ : DisplayPoint)).col = 0
      ∨ (false = true ∧ ((⟨0, 0⟩ : DisplayPoint)).col =
          snapAbCd.lineLen ((⟨0, 0⟩ : DisplayPoint)).row))
    ∧ (((⟨0, 2⟩ : DisplayPoint)).col = snapAbCd.lineLen ((⟨0, 2⟩ : DisplayPoint)).row
      ∨ (false = true ∧ ((⟨0, 2⟩ : DisplayPoint)).col = 0))
    ∧ ((⟨0, 0⟩ : DisplayPoint)).row ≤ ((⟨0, 2⟩ : DisplayPoint)).row :=
  linewise_range_shape .currentLine snapAbCd ⟨⟨0, 0⟩, ⟨0, 0⟩, false, .none⟩ none false
    tldNone (⟨0, 0⟩, ⟨0, 2⟩) (by decide) (by decide)

/-! ## Offset/position correspondence lemmas -/

namespace DisplaySnapshot

/-- Line length at an index, list level. -/
def lenL (ls : List (List Char)) (r : Nat) : Nat :=
  ((ls.get? r).getD []).length

lemma offsetOfL_col (ls : List (List Char)) : ∀ r c, offsetOfL ls r c = offsetOfL ls r 0 + c := by
  induction ls with
  | nil =>
    intro r c
    cases r
    · show c = 0 + c
      omega
    · show c = 0 + c
      omega
  | cons l ls ih =>
    intro r c
    cases r with
    | zero =>
      show c = 0 + c
      omega
    | succ r =>
      show l.length + 1 + offsetOfL ls r c = l.length + 1 + offsetOfL ls r 0 + c
      rw [ih r c]
      omega

lemma posOfAux_shift (ls : List (List Char)) : ∀ r o, posOfAux ls r o =
    ⟨r + (posOfAux ls 0 o).row, (posOfAux ls 0 o).col⟩ := by
  induction ls with
  | nil => intro r o; simp [posOfAux]
  | cons l ls ih =>
    intro r o
    cases ls with
    | nil => simp [posOfAux]
    | cons l2 rest =>
      by_cases h : o ≤ l.length
      · simp [posOfAux, h]
      · simp only [posOfAux, if_neg h]
        rw [ih (r + 1), ih 1]
        simp only [DisplayPoint.mk.injEq]
        refine ⟨by omega, by simp⟩

lemma joinLines_cons2 (l l2 : List Char) (rest : List (List Char)) :
    joinLines (l :: l2 :: rest) = l ++ '\n' :: joinLines (l2 :: rest) := rfl

lemma posOf_specL (ls : List (List Char)) : ls ≠ [] → ∀ o, o ≤ (joinLines ls).length →
    (posOfAux ls 0 o).row < ls.length ∧
    (posOfAux ls 0 o).col ≤ lenL ls (posOfAux ls 0 o).row ∧
    offsetOfL ls (posOfAux ls 0 o).row (posOfAux ls 0 o).col = o := by
  induction ls with
  | nil => intro h; exact absurd rfl h
  | cons l ls ih =>
    intro _ o ho
    cases ls with
    | nil =>
      simp only [posOfAux, joinLines] at *
      exact ⟨Nat.zero_lt_one, by simpa [lenL] using ho, rfl⟩
    | cons l2 rest =>
      by_cases hle : o ≤ l.length
      · simp only [posOfAux, if_pos hle]
        exact ⟨by simp, by simpa [lenL] using hle, rfl⟩
      · simp only [posOfAux, if_neg hle]
        rw [posOfAux_shift]
        have hrest : o - l.length - 1 ≤ (joinLines (l2 :: rest)).length := by
          rw [joinLines_cons2] at ho
          simp at ho
          omega
        obtain ⟨h1, h2, h3⟩ := ih (by simp) (o - l.length - 1) hrest
        refine ⟨?_, ?_, ?_⟩
        · show 1 + (posOfAux (l2 :: rest) 0 (o - l.length - 1)).row < (l :: l2 :: rest).length
          have hlen : (l :: l2 :: rest).length = (l2 :: rest).length + 1 := rfl
          omega
        · show (posOfAux (l2 :: rest) 0 (o - l.length - 1)).col
            ≤ lenL (l :: l2 :: rest) (1 + (posOfAux (l2 :: rest) 0 (o - l.length - 1)).row)
          rw [Nat.add_comm 1]
          exact h2
        · show offsetOfL (l :: l2 :: rest) (1 + (posOfAux (l2 :: rest) 0 (o - l.length - 1)).row)
            (posOfAux (l2 :: rest) 0 (o - l.length - 1)).col = o
          rw [Nat.add_comm 1]
          show l.length + 1 + offsetOfL (l2 :: rest)
            (posOfAux (l2 :: rest) 0 (o - l.length - 1)).row
            (posOfAux (l2 :: rest) 0 (o - l.length - 1)).col = o
          rw [h3]
          omega

lemma offsetOf_posOfL (ls : List (List Char)) : ∀ r c, r < ls.length → c ≤ lenL ls r →
    posOfAux ls 0 (offsetOfL ls r c) = ⟨r, c⟩ := by
  induction ls with
  | nil => intro r c h; simp at h
  | cons l ls ih =>
    intro r c hr hc
    cases r with
    | zero =>
      cases ls with
      | nil => simp [offsetOfL, posOfAux]
      | cons l2 rest =>
        have : c ≤ l.length := by simpa [lenL] using hc
        simp [offsetOfL, posOfAux, this]
    | succ r =>
      cases ls with
      | nil => simp at hr
      | cons l2 rest =>
        have hr' : r < (l2 :: rest).length := by simpa using hr
        have hc' : c ≤ lenL (l2 :: rest) r := by simpa [lenL] using hc
        show posOfAux (l :: l2 :: rest) 0 (l.length + 1 + offsetOfL (l2 :: rest) r c) = _
        have hgt : ¬(l.length + 1 + offsetOfL (l2 :: rest) r c ≤ l.length) := by omega
        simp only [posOfAux, if_neg hgt]
        rw [posOfAux_shift]
        have harg : l.length + 1 + offsetOfL (l2 :: rest) r c - l.length - 1
            = offsetOfL (l2 :: rest) r c := by omega
        rw [harg, ih r c hr' hc']
        simp only [DisplayPoint.mk.injEq]
        refine ⟨?_, by simp⟩
        show 1 + r = r + 1
        omega

lemma offsetOf_le_textLenL (ls : List (List Char)) : ∀ r c, r < ls.length → c ≤ lenL ls r →
    offsetOfL ls r c ≤ (joinLines ls).length := by
  induction ls with
  | nil => intro r c h; simp at h
  | cons l ls ih =>
    intro r c hr hc
    cases r with
    | zero =>
      cases ls with
      | nil => simpa [offsetOfL, joinLines, lenL] using hc
      | cons l2 rest =>
        have : c ≤ l.length := by simpa [lenL] using hc
        rw [joinLines_cons2]
        simp [offsetOfL]
        omega
    | succ r =>
      cases ls with
      | nil => simp at hr
      | cons l2 rest =>
        have hr' : r < (l2 :: rest).length := by simpa using hr
        have hc' : c ≤ lenL (l2 :: rest) r := by simpa [lenL] using hc
        have := ih r c hr' hc'
        rw [joinLines_cons2]
        show l.length + 1 + offsetOfL (l2 :: rest) r c
          ≤ (l ++ '\n' :: joinLines (l2 :: rest)).length
        have hlen : (l ++ '\n' :: joinLines (l2 :: rest)).length
            = l.length + 1 + (joinLines (l2 :: rest)).length := by
          rw [List.length_append, List.length_cons]
          omega
        omega

lemma offsetOf_maxL (ls : List (List Char)) : ls ≠ [] →
    offsetOfL ls (ls.length - 1) (lenL ls (ls.length - 1)) = (joinLines ls).length := by
  induction ls with
  | nil => intro h; exact absurd rfl h
  | cons l ls ih =>
    intro _
    cases ls with
    | nil => simp [offsetOfL, lenL, joinLines]
    | cons l2 rest =>
      have hIH := ih (by simp)
      rw [joinLines_cons2]
      have hl : (l :: l2 :: rest).length - 1 = rest.length + 1 := by simp
      rw [hl]
      show l.length + 1 + offsetOfL (l2 :: rest) rest.length (lenL (l2 :: rest) rest.length)
          = (l ++ '\n' :: joinLines (l2 :: rest)).length
      have hl2 : (l2 :: rest).length - 1 = rest.length := by simp
      rw [hl2] at hIH
      rw [hIH]
      simp
      omega

lemma rowStartL (ls : List (List Char)) : ∀ r, r < ls.length →
    offsetOfL ls (r + 1) 0 = offsetOfL ls r (lenL ls r) + 1 := by
  induction ls with
  | nil => intro r h; simp at h
  | cons l ls ih =>
    intro r hr
    cases r with
    | zero => simp [offsetOfL, lenL]
    | succ r =>
      have hr' : r < ls.length := by simpa using hr
      show l.length + 1 + offsetOfL ls (r + 1) 0 = l.length + 1 + offsetOfL ls r (lenL ls r) + 1
      rw [ih r hr']
      omega

end DisplaySnapshot

lemma dp_row (r c : Nat) : (⟨r, c⟩ : DisplayPoint).row = r := rfl

lemma dp_col (r c : Nat) : (⟨r, c⟩ : DisplayPoint).col = c := rfl

namespace DisplaySnapshot

lemma posOf_spec (m : DisplaySnapshot) (o : Nat) (h0 : 0 < m.lines.length)
    (ho : o ≤ m.textLen) : m.Valid (m.posOf o) ∧ m.offsetOf (m.posOf o) = o := by
  have hne : m.lines ≠ [] := by
    cases hm : m.lines
    · rw [hm] at h0; simp at h0
    · simp
  obtain ⟨h1, h2, h3⟩ := posOf_specL m.lines hne o ho
  exact ⟨⟨h1, h2⟩, h3⟩

lemma posOf_offsetOf (m : DisplaySnapshot) (p : DisplayPoint) (h : m.Valid p) :
    m.posOf (m.offsetOf p) = p := by
  have := offsetOf_posOfL m.lines p.row p.col h.1 h.2
  unfold posOf offsetOf
  rw [this]

lemma offsetOf_le_textLen (m : DisplaySnapshot) (p : DisplayPoint) (h : m.Valid p) :
    m.offsetOf p ≤ m.textLen :=
  offsetOf_le_textLenL m.lines p.row p.col h.1 h.2

lemma offsetOf_inj (m : DisplaySnapshot) (p q : DisplayPoint) (hp : m.Valid p)
    (hq : m.Valid q) (h : m.offsetOf p = m.offsetOf q) : p = q := by
  have h1 := m.posOf_offsetOf p hp
  have h2 := m.posOf_offsetOf q hq
  rw [← h1, ← h2, h]

lemma valid_maxPoint (m : DisplaySnapshot) (h0 : 0 < m.lines.length) :
    m.Valid m.maxPoint := by
  unfold Valid maxPoint maxRow
  refine ⟨?_, ?_⟩
  · show m.lines.length - 1 < m.lines.length
    omega
  · exact Nat.le_refl _

lemma offsetOf_maxPoint (m : DisplaySnapshot) (h0 : 0 < m.lines.length) :
    m.offsetOf m.maxPoint = m.textLen := by
  have hne : m.lines ≠ [] := by
    cases hm : m.lines
    · rw [hm] at h0; simp at h0
    · simp
  exact offsetOf_maxL m.lines hne

lemma posOf_textLen (m : DisplaySnapshot) (h0 : 0 < m.lines.length) :
    m.posOf m.textLen = m.maxPoint := by
  have h1 := m.posOf_offsetOf m.maxPoint (m.valid_maxPoint h0)
  rw [m.offsetOf_maxPoint h0] at h1
  exact h1

lemma offsetOf_col_succ (m : DisplaySnapshot) (r c : Nat) :
    m.offsetOf ⟨r, c + 1⟩ = m.offsetOf ⟨r, c⟩ + 1 := by
  unfold offsetOf
  rw [offsetOfL_col m.lines r (c + 1), offsetOfL_col m.lines r c]
  omega

lemma offsetOf_row_succ (m : DisplaySnapshot) (r : Nat) (hr : r < m.lines.length) :
    m.offsetOf ⟨r + 1, 0⟩ = m.offsetOf ⟨r, m.lineLen r⟩ + 1 :=
  rowStartL m.lines r hr

/-- `movement::left` moves to the previous character offset. -/
lemma movementLeft_spec (m : DisplaySnapshot) (p : DisplayPoint) (h : m.Valid p)
    (h1 : 1 ≤ m.offsetOf p) :
    m.Valid (m.movementLeft p) ∧ m.offsetOf (m.movementLeft p) + 1 = m.offsetOf p := by
  obtain ⟨row, col⟩ := p
  have h2 : col ≤ m.lineLen row := h.2
  have h3 : row < m.lines.length := h.1
  unfold movementLeft
  simp only [dp_row, dp_col]
  by_cases hc : 0 < col
  · rw [if_pos hc]
    have hv : m.Valid ⟨row, col - 1⟩ := ⟨h3, show col - 1 ≤ m.lineLen row by omega⟩
    rw [clip_id m _ _ hv]
    refine ⟨hv, ?_⟩
    have hs := m.offsetOf_col_succ row (col - 1)
    have hcc : col - 1 + 1 = col := by omega
    rw [hcc] at hs
    omega
  · rw [if_neg hc]
    have hc0 : col = 0 := by omega
    by_cases hrow : 0 < row
    · rw [if_pos hrow]
      have hrl : row - 1 < m.lines.length := by omega
      have hv : m.Valid ⟨row - 1, m.lineLen (row - 1)⟩ := ⟨hrl, Nat.le_refl _⟩
      rw [clip_id m _ _ hv]
      refine ⟨hv, ?_⟩
      have hs := m.offsetOf_row_succ (row - 1) hrl
      have hrr : row - 1 + 1 = row := by omega
      rw [hrr] at hs
      rw [hc0]
      omega
    · exfalso
      have hr0 : row = 0 := by omega
      rw [hr0, hc0] at h1
      have hz : m.offsetOf ⟨0, 0⟩ = 0 := by
        unfold offsetOf
        cases m.lines <;> rfl
      omega

/-- `movement::right` never decreases the offset, and away from the buffer
end it advances by exactly one. -/
lemma movementRight_spec (m : DisplaySnapshot) (p : DisplayPoint) (h : m.Valid p) :
    m.Valid (m.movementRight p) ∧ m.offsetOf p ≤ m.offsetOf (m.movementRight p)
    ∧ (p ≠ m.maxPoint → m.offsetOf (m.movementRight p) = m.offsetOf p + 1) := by
  have h0 : 0 < m.lines.length := m.valid_pos_lines p h
  obtain ⟨row, col⟩ := p
  have h2 : col ≤ m.lineLen row := h.2
  have h3 : row < m.lines.length := h.1
  unfold movementRight
  simp only [dp_row, dp_col]
  by_cases hc : col < m.lineLen row
  · rw [if_pos hc]
    have hv : m.Valid ⟨row, col + 1⟩ := ⟨h3, show col + 1 ≤ m.lineLen row by omega⟩
    rw [clip_id m _ _ hv]
    have hs := m.offsetOf_col_succ row col
    exact ⟨hv, by omega, fun _ => hs⟩
  · rw [if_neg hc]
    have hcol : col = m.lineLen row := by omega
    by_cases hrow : row < m.maxRow
    · rw [if_pos hrow]
      have hrl : row + 1 < m.lines.length := by unfold maxRow at hrow; omega
      have hv : m.Valid ⟨row + 1, 0⟩ := ⟨hrl, Nat.zero_le _⟩
      rw [clip_id m _ _ hv]
      have hs := m.offsetOf_row_succ row h3
      rw [← hcol] at hs
      exact ⟨hv, by omega, fun _ => hs⟩
    · rw [if_neg hrow]
      rw [clip_id m _ _ h]
      refine ⟨h, Nat.le_refl _, fun hne => absurd ?_ hne⟩
      have hrr : row = m.maxRow := by
        have hle : row ≤ m.maxRow := m.row_le_maxRow ⟨row, col⟩ h
        omega
      unfold maxPoint
      simp only [DisplayPoint.mk.injEq]
      exact ⟨hrr, by rw [hcol, hrr]⟩

end DisplaySnapshot

/-! ## Scanner bound lemmas -/

lemma fbAux_bounds {σ : Type} (mode : FindRange) (pred : σ → Char → Char → σ × Bool) :
    ∀ (cs : List Char) (off : Nat) (prev : Char) (s : σ),
      off ≤ (fbAux mode pred cs off prev s).1
      ∧ (fbAux mode pred cs off prev s).1 ≤ off + cs.length := by
  intro cs
  induction cs with
  | nil => intro off prev s; simp [fbAux]
  | cons ch rest ih =>
    intro off prev s
    simp only [fbAux]
    by_cases hz : mode = FindRange.singleLine ∧ ch = '\n'
    · rw [if_pos hz]
      simp
    · rw [if_neg hz]
      rcases hp : pred s prev ch with ⟨s2, fired⟩
      dsimp only
      cases fired
      · simp only [if_neg Bool.false_ne_true]
        have := ih (off + 1) ch s2
        constructor
        · omega
        · have hlen : (ch :: rest).length = rest.length + 1 := rfl
          omega
      · simp
  
lemma findBoundaryOff_bounds {σ : Type} (m : DisplaySnapshot) (start : Nat)
    (mode : FindRange) (pred : σ → Char → Char → σ × Bool) (s0 : σ) :
    start ≤ (findBoundaryOff m start mode pred s0).1
    ∧ ((findBoundaryOff m start mode pred s0).2.2 = true →
        start + 1 ≤ (findBoundaryOff m start mode pred s0).1)
    ∧ (start ≤ m.textLen → (findBoundaryOff m start mode pred s0).1 ≤ m.textLen) := by
  unfold findBoundaryOff
  rcases hd : m.text.drop start with _ | ⟨c, rest⟩ <;> dsimp only
  · exact ⟨Nat.le_refl _, by intro h; simp at h, fun h => h⟩
  · by_cases hz : mode = FindRange.singleLine ∧ c = '\n'
    · rw [if_pos hz]
      refine ⟨Nat.le_refl _, by intro h; simp at h, fun h => h⟩
    · rw [if_neg hz]
      have hb := fbAux_bounds mode pred rest (start + 1) c s0
      have hlen : rest.length = m.text.length - start - 1 := by
        have := congrArg List.length hd
        simp at this
        omega
      refine ⟨by omega, fun _ => by omega, fun hle => ?_⟩
      have hsl : start < m.text.length := by
        by_contra hnot
        rw [List.drop_eq_nil_of_le (by omega)] at hd
        simp at hd
      unfold DisplaySnapshot.textLen
      omega

lemma fpAux_none_step {σ : Type} (mode : FindRange) (pred : σ → Char → Char → σ × Bool)
    (ch : Char) (rest : List Char) (off : Nat) (s : σ) :
    fpAux mode pred (ch :: rest) off none s =
      if mode = .singleLine ∧ ch = '\n' then (off, s, false)
      else fpAux mode pred rest (off - 1) (some ch) s := rfl

lemma fpAux_some_step {σ : Type} (mode : FindRange) (pred : σ → Char → Char → σ × Bool)
    (ch pv : Char) (rest : List Char) (off : Nat) (s : σ) :
    fpAux mode pred (ch :: rest) off (some pv) s =
      if mode = .singleLine ∧ ch = '\n' then (off, s, false)
      else if (pred s ch pv).2 = true then (off, (pred s ch pv).1, true)
      else fpAux mode pred rest (off - 1) (some ch) (pred s ch pv).1 := by
  show (if mode = .singleLine ∧ ch = '\n' then (off, s, false)
    else
      let r := pred s ch pv
      if r.2 = true then (off, r.1, true)
      else fpAux mode pred rest (off - 1) (some ch) r.1) = _
  rfl

lemma fpAux_bounds {σ : Type} (mode : FindRange) (pred : σ → Char → Char → σ × Bool) :
    ∀ (cs : List Char) (off : Nat) (prev : Option Char) (s : σ),
      cs.length ≤ off →
      (fpAux mode pred cs off prev s).1 ≤ off
      ∧ ((fpAux mode pred cs off prev s).2.2 = true →
          1 ≤ (fpAux mode pred cs off prev s).1
          ∧ (prev = none → (fpAux mode pred cs off prev s).1 + 1 ≤ off)) := by
  intro cs
  induction cs with
  | nil => intro off prev s _; simp [fpAux]
  | cons ch rest ih =>
    intro off prev s hlen
    have hoff : 1 ≤ off := by
      have hl : (ch :: rest).length = rest.length + 1 := rfl
      omega
    have hrest : rest.length ≤ off - 1 := by
      have hl : (ch :: rest).length = rest.length + 1 := rfl
      omega
    cases prev with
    | none =>
      rw [fpAux_none_step]
      by_cases hz : mode = FindRange.singleLine ∧ ch = '\n'
      · rw [if_pos hz]
        refine ⟨Nat.le_refl _, by intro h; simp at h⟩
      · rw [if_neg hz]
        have hI := ih (off - 1) (some ch) s hrest
        refine ⟨by omega, fun hf => ?_⟩
        obtain ⟨ha, _⟩ := hI.2 hf
        exact ⟨ha, fun _ => by omega⟩
    | some pv =>
      rw [fpAux_some_step]
      by_cases hz : mode = FindRange.singleLine ∧ ch = '\n'
      · rw [if_pos hz]
        refine ⟨Nat.le_refl _, by intro h; simp at h⟩
      · rw [if_neg hz]
        by_cases hf : (pred s ch pv).2 = true
        · rw [if_pos hf]
          exact ⟨Nat.le_refl _, fun _ => ⟨hoff, fun hcon => by simp at hcon⟩⟩
        · rw [if_neg hf]
          have hI := ih (off - 1) (some ch) (pred s ch pv).1 hrest
          refine ⟨by omega, fun hfi => ?_⟩
          obtain ⟨ha, _⟩ := hI.2 hfi
          exact ⟨ha, fun hcon => by simp at hcon⟩

lemma findPrecedingOff_bounds {σ : Type} (m : DisplaySnapshot) (start : Nat)
    (mode : FindRange) (pred : σ → Char → Char → σ × Bool) (s0 : σ)
    (hs : start ≤ m.textLen) :
    (findPrecedingOff m start mode pred s0).1 ≤ start
    ∧ ((findPrecedingOff m start mode pred s0).2.2 = true →
        1 ≤ (findPrecedingOff m start mode pred s0).1
        ∧ (findPrecedingOff m start mode pred s0).1 + 1 ≤ start) := by
  unfold findPrecedingOff
  have hlen : (m.text.take start).reverse.length ≤ start := by
    simp
  have := fpAux_bounds mode pred (m.text.take start).reverse start none s0 hlen
  exact ⟨this.1, fun hf => ⟨(this.2 hf).1, (this.2 hf).2 rfl⟩⟩

/-! ## Character-search progress lemmas -/

lemma findBoundarySt_spec {σ : Type} (m : DisplaySnapshot) (p : DisplayPoint)
    (mode : FindRange) (pred : σ → Char → Char → σ × Bool) (s0 : σ) (h : m.Valid p) :
    m.Valid (findBoundarySt m p mode pred s0).1
    ∧ m.offsetOf p ≤ m.offsetOf (findBoundarySt m p mode pred s0).1
    ∧ ((findBoundarySt m p mode pred s0).2.2 = true →
        m.offsetOf p + 1 ≤ m.offsetOf (findBoundarySt m p mode pred s0).1) := by
  have h0 : 0 < m.lines.length := m.valid_pos_lines p h
  have hle := m.offsetOf_le_textLen p h
  obtain ⟨hb1, hb2, hb3⟩ := findBoundaryOff_bounds m (m.offsetOf p) mode pred s0
  have hot : (findBoundaryOff m (m.offsetOf p) mode pred s0).1 ≤ m.textLen := hb3 hle
  obtain ⟨hv, ho⟩ := m.posOf_spec (findBoundaryOff m (m.offsetOf p) mode pred s0).1 h0 hot
  unfold findBoundarySt
  dsimp only
  rw [m.clip_id _ _ hv]
  refine ⟨hv, ?_, ?_⟩
  · rw [ho]; exact hb1
  · intro hf; rw [ho]; exact hb2 hf

lemma findPrecedingSt_spec {σ : Type} (m : DisplaySnapshot) (p : DisplayPoint)
    (mode : FindRange) (pred : σ → Char → Char → σ × Bool) (s0 : σ) (h : m.Valid p) :
    m.Valid (findPrecedingSt m p mode pred s0).1
    ∧ m.offsetOf (findPrecedingSt m p mode pred s0).1 ≤ m.offsetOf p
    ∧ ((findPrecedingSt m p mode pred s0).2.2 = true →
        1 ≤ m.offsetOf (findPrecedingSt m p mode pred s0).1
        ∧ m.offsetOf (findPrecedingSt m p mode pred s0).1 + 1 ≤ m.offsetOf p) := by
  have h0 : 0 < m.lines.length := m.valid_pos_lines p h
  have hle := m.offsetOf_le_textLen p h
  obtain ⟨hb1, hb2⟩ := findPrecedingOff_bounds m (m.offsetOf p) mode pred s0 hle
  have hot : (findPrecedingOff m (m.offsetOf p) mode pred s0).1 ≤ m.textLen := by omega
  obtain ⟨hv, ho⟩ := m.posOf_spec (findPrecedingOff m (m.offsetOf p) mode pred s0).1 h0 hot
  unfold findPrecedingSt
  dsimp only
  rw [m.clip_id _ _ hv]
  refine ⟨hv, by rw [ho]; exact hb1, fun hf => ?_⟩
  rw [ho]
  exact hb2 hf

lemma ffLoop_spec (m : DisplaySnapshot) (mode : FindRange) (target : Char) (sc : Bool) :
    ∀ (n : Nat) (cur : DisplayPoint) (f : Bool) (q : DisplayPoint),
      m.Valid cur → ffLoop m mode target sc cur f n = (q, true) →
      m.Valid q ∧ m.offsetOf cur + n ≤ m.offsetOf q := by
  intro n
  induction n with
  | zero =>
    intro cur f q hv hq
    simp only [ffLoop, Prod.mk.injEq] at hq
    obtain ⟨rfl, -⟩ := hq
    exact ⟨hv, by omega⟩
  | succ n ih =>
    intro cur f q hv hq
    rw [show ffLoop m mode target sc cur f (n + 1) =
      (if (findBoundarySt m cur mode
            (fun (_ : Unit) _l right => ((), is_character_match target right sc)) ()).1 = cur
        then (cur, (findBoundarySt m cur mode
            (fun (_ : Unit) _l right => ((), is_character_match target right sc)) ()).2.2)
        else ffLoop m mode target sc
          (findBoundarySt m cur mode
            (fun (_ : Unit) _l right => ((), is_character_match target right sc)) ()).1
          (findBoundarySt m cur mode
            (fun (_ : Unit) _l right => ((), is_character_match target right sc)) ()).2.2
          n) from rfl] at hq
    obtain ⟨hrv, hrle, hrf⟩ := findBoundarySt_spec m cur mode
      (fun (_ : Unit) _l right => ((), is_character_match target right sc)) () hv
    set r := findBoundarySt m cur mode
      (fun (_ : Unit) _l right => ((), is_character_match target right sc)) () with hrdef
    by_cases he : r.1 = cur
    · rw [if_pos he] at hq
      simp only [Prod.mk.injEq] at hq
      obtain ⟨-, h2⟩ := hq
      have hstep := hrf h2
      have hoe : m.offsetOf r.1 = m.offsetOf cur := by rw [he]
      omega
    · rw [if_neg he] at hq
      have hne : m.offsetOf cur + 1 ≤ m.offsetOf r.1 := by
        rcases Nat.lt_or_ge (m.offsetOf cur) (m.offsetOf r.1) with hlt | hge
        · omega
        · have heq : m.offsetOf r.1 = m.offsetOf cur := by omega
          exact absurd (m.offsetOf_inj r.1 cur hrv hv heq) he
      obtain ⟨hq1, hq2⟩ := ih r.1 r.2.2 q hrv hq
      exact ⟨hq1, by omega⟩

lemma find_forward_spec (m : DisplaySnapshot) (src : DisplayPoint) (before : Bool)
    (target : Char) (times : Nat) (mode : FindRange) (sc : Bool) (q : DisplayPoint)
    (hv : m.Valid src)
    (hq : find_forward m src before target times mode sc = some q) :
    m.Valid q ∧ m.offsetOf src + times ≤ m.offsetOf q + 1 := by
  unfold find_forward at hq
  rcases hr : ffLoop m mode target sc src false times with ⟨pt, found⟩
  rw [hr] at hq
  cases found with
  | false => simp at hq
  | true =>
    obtain ⟨hptv, hptle⟩ := ffLoop_spec m mode target sc times src false pt hv hr
    rw [if_pos rfl] at hq
    dsimp only at hq
    by_cases hb : before = true ∧ 0 < pt.col
    · rw [if_pos hb] at hq
      injection hq with hq
      subst hq
      have hvv : m.Valid ⟨pt.row, pt.col - 1⟩ := by
        refine ⟨?_, ?_⟩
        · show pt.row < m.lines.length
          exact hptv.1
        · show pt.col - 1 ≤ m.lineLen pt.row
          have h2 := hptv.2
          omega
      rw [m.clip_id _ _ hvv]
      refine ⟨hvv, ?_⟩
      have hs := m.offsetOf_col_succ pt.row (pt.col - 1)
      have hcc : pt.col - 1 + 1 = pt.col := by omega
      rw [hcc] at hs
      have hpp : (⟨pt.row, pt.col⟩ : DisplayPoint) = pt := rfl
      rw [hpp] at hs
      omega
    · rw [if_neg hb] at hq
      injection hq with hq
      subst hq
      exact ⟨hptv, by omega⟩

lemma find_forward_zero (m : DisplaySnapshot) (src : DisplayPoint) (before : Bool)
    (target : Char) (mode : FindRange) (sc : Bool) :
    find_forward m src before target 0 mode sc = none := rfl

lemma snLoop_spec (m : DisplaySnapshot) (c1 c2 : Char) (sc : Bool) :
    ∀ (n : Nat) (cur : DisplayPoint) (f : Bool) (q : DisplayPoint),
      m.Valid cur → snLoop m c1 c2 sc cur f n = (q, true) →
      m.Valid q ∧ m.offsetOf cur ≤ m.offsetOf q
      ∧ (1 ≤ n → m.offsetOf cur + 2 ≤ m.offsetOf q) := by
  intro n
  induction n with
  | zero =>
    intro cur f q hv hq
    simp only [snLoop, Prod.mk.injEq] at hq
    obtain ⟨rfl, -⟩ := hq
    exact ⟨hv, Nat.le_refl _, by omega⟩
  | succ n ih =>
    intro cur f q hv hq
    rw [show snLoop m c1 c2 sc cur f (n + 1) =
      (if (findBoundarySt m (m.movementRight cur) .multiLine
            (fun (_ : Unit) left right =>
              ((), is_character_match c1 left sc && is_character_match c2 right sc)) ()).1 = cur
        then (cur, (findBoundarySt m (m.movementRight cur) .multiLine
            (fun (_ : Unit) left right =>
              ((), is_character_match c1 left sc && is_character_match c2 right sc)) ()).2.2)
        else snLoop m c1 c2 sc
          (findBoundarySt m (m.movementRight cur) .multiLine
            (fun (_ : Unit) left right =>
              ((), is_character_match c1 left sc && is_character_match c2 right sc)) ()).1
          (findBoundarySt m (m.movementRight cur) .multiLine
            (fun (_ : Unit) left right =>
              ((), is_character_match c1 left sc && is_character_match c2 right sc)) ()).2.2
          n) from rfl] at hq
    obtain ⟨hmv, hmle, hmone⟩ := m.movementRight_spec cur hv
    obtain ⟨hrv, hrle, hrf⟩ := findBoundarySt_spec m (m.movementRight cur) .multiLine
      (fun (_ : Unit) left right =>
        ((), is_character_match c1 left sc && is_character_match c2 right sc)) () hmv
    set r := findBoundarySt m (m.movementRight cur) .multiLine
      (fun (_ : Unit) left right =>
        ((), is_character_match c1 left sc && is_character_match c2 right sc)) () with hrdef
    have h0 : 0 < m.lines.length := m.valid_pos_lines cur hv
    by_cases he : r.1 = cur
    · rw [if_pos he] at hq
      simp only [Prod.mk.injEq] at hq
      obtain ⟨-, h2⟩ := hq
      have hstep := hrf h2
      have hoe : m.offsetOf r.1 = m.offsetOf cur := by rw [he]
      omega
    · rw [if_neg he] at hq
      obtain ⟨hq1, hq2, hq3⟩ := ih r.1 r.2.2 q hrv hq
      refine ⟨hq1, by omega, fun _ => ?_⟩
      cases n with
      | zero =>
        simp only [snLoop, Prod.mk.injEq] at hq
        obtain ⟨he1, he2⟩ := hq
        have hstep := hrf he2
        by_cases hmax : cur = m.maxPoint
        · exfalso
          have ha := m.offsetOf_maxPoint h0
          have hb := m.offsetOf_le_textLen r.1 hrv
          have hc : m.offsetOf cur = m.textLen := by rw [hmax]; exact ha
          have hd := m.offsetOf_le_textLen (m.movementRight cur) hmv
          omega
        · have hone := hmone hmax
          have hoq : m.offsetOf r.1 = m.offsetOf q := by rw [he1]
          omega
      | succ k =>
        have hs := hq3 (by omega)
        omega

lemma sneak_strict (m : DisplaySnapshot) (src : DisplayPoint) (c1 c2 : Char)
    (times : Nat) (sc : Bool) (q : DisplayPoint) (hv : m.Valid src)
    (hq : sneak m src c1 c2 times sc = some q) :
    m.Valid q ∧ m.offsetOf src < m.offsetOf q := by
  cases times with
  | zero => exact absurd hq (by simp [sneak, snLoop])
  | succ n =>
    unfold sneak at hq
    rcases hr : snLoop m c1 c2 sc src false (n + 1) with ⟨pt, found⟩
    rw [hr] at hq
    cases found with
    | false => simp at hq
    | true =>
      rw [if_pos rfl] at hq
      injection hq with hq
      obtain ⟨hp1, hp2, hp3⟩ := snLoop_spec m c1 c2 sc (n + 1) src false pt hv hr
      have hs := hp3 (by omega)
      obtain ⟨hm1, hm2⟩ := m.movementLeft_spec pt hp1 (by omega)
      rw [hq] at hm1 hm2
      exact ⟨hm1, by omega⟩

lemma sbLoop_spec (m : DisplaySnapshot) (c1 c2 : Char) (sc : Bool) :
    ∀ (n : Nat) (cur : DisplayPoint) (f : Bool) (q : DisplayPoint),
      m.Valid cur → sbLoop m c1 c2 sc cur f n = (q, true) →
      m.Valid q ∧ m.offsetOf q ≤ m.offsetOf cur
      ∧ (1 ≤ n → 1 ≤ m.offsetOf q ∧ m.offsetOf q + 1 ≤ m.offsetOf cur) := by
  intro n
  induction n with
  | zero =>
    intro cur f q hv hq
    simp only [sbLoop, Prod.mk.injEq] at hq
    obtain ⟨rfl, -⟩ := hq
    exact ⟨hv, Nat.le_refl _, by omega⟩
  | succ n ih =>
    intro cur f q hv hq
    rw [show sbLoop m c1 c2 sc cur f (n + 1) =
      (if (findPrecedingSt m cur .multiLine
            (fun (_ : Unit) left right =>
              ((), is_character_match c1 left sc && is_character_match c2 right sc)) ()).1 = cur
        then (cur, (findPrecedingSt m cur .multiLine
            (fun (_ : Unit) left right =>
              ((), is_character_match c1 left sc && is_character_match c2 right sc)) ()).2.2)
        else sbLoop m c1 c2 sc
          (findPrecedingSt m cur .multiLine
            (fun (_ : Unit) left right =>
              ((), is_character_match c1 left sc && is_character_match c2 right sc)) ()).1
          (findPrecedingSt m cur .multiLine
            (fun (_ : Unit) left right =>
              ((), is_character_match c1 left sc && is_character_match c2 right sc)) ()).2.2
          n) from rfl] at hq
    obtain ⟨hrv, hrle, hrf⟩ := findPrecedingSt_spec m cur .multiLine
      (fun (_ : Unit) left right =>
        ((), is_character_match c1 left sc && is_character_match c2 right sc)) () hv
    set r := findPrecedingSt m cur .multiLine
      (fun (_ : Unit) left right =>
        ((), is_character_match c1 left sc && is_character_match c2 right sc)) () with hrdef
    by_cases he : r.1 = cur
    · rw [if_pos he] at hq
      simp only [Prod.mk.injEq] at hq
      obtain ⟨-, h2⟩ := hq
      obtain ⟨hg1, hg2⟩ := hrf h2
      have hoe : m.offsetOf r.1 = m.offsetOf cur := by rw [he]
      omega
    · rw [if_neg he] at hq
      obtain ⟨hq1, hq2, hq3⟩ := ih r.1 r.2.2 q hrv hq
      refine ⟨hq1, by omega, fun _ => ?_⟩
      cases n with
      | zero =>
        simp only [sbLoop, Prod.mk.injEq] at hq
        obtain ⟨he1, he2⟩ := hq
        obtain ⟨hg1, hg2⟩ := hrf he2
        have hoq : m.offsetOf r.1 = m.offsetOf q := by rw [he1]
        omega
      | succ k =>
        have hs := hq3 (by omega)
        omega

lemma sneak_backward_strict (m : DisplaySnapshot) (src : DisplayPoint) (c1 c2 : Char)
    (times : Nat) (sc : Bool) (q : DisplayPoint) (hv : m.Valid src)
    (hq : sneak_backward m src c1 c2 times sc = some q) :
    m.Valid q ∧ m.offsetOf q < m.offsetOf src := by
  cases times with
  | zero => exact absurd hq (by simp [sneak_backward, sbLoop])
  | succ n =>
    unfold sneak_backward at hq
    rcases hr : sbLoop m c1 c2 sc src false (n + 1) with ⟨pt, found⟩
    rw [hr] at hq
    cases found with
    | false => simp at hq
    | true =>
      rw [if_pos rfl] at hq
      injection hq with hq
      obtain ⟨hp1, hp2, hp3⟩ := sbLoop_spec m c1 c2 sc (n + 1) src false pt hv hr
      obtain ⟨hs1, hs2⟩ := hp3 (by omega)
      obtain ⟨hm1, hm2⟩ := m.movementLeft_spec pt hp1 (by omega)
      rw [hq] at hm1 hm2
      exact ⟨hm1, by omega⟩

lemma move_point_ret_some (m : Motion) (map : DisplaySnapshot) (p : DisplayPoint)
    (g : SelectionGoal) (t : Option Nat) (tld : TextLayoutDetails)
    (o : Option (DisplayPoint × SelectionGoal))
    (p2 : DisplayPoint) (g2 : SelectionGoal)
    (hq : move_point m map p g t tld = some (p2, g2))
    (hin : move_point_inner m map p g t tld = .ret o) : o = some (p2, g2) := by
  unfold move_point at hq
  rw [hin] at hq
  exact hq

lemma move_point_fall_ne (m : Motion) (map : DisplaySnapshot) (p : DisplayPoint)
    (g : SelectionGoal) (t : Option Nat) (tld : TextLayoutDetails)
    (np : DisplayPoint) (g' : SelectionGoal)
    (p2 : DisplayPoint) (g2 : SelectionGoal)
    (hq : move_point m map p g t tld = some (p2, g2))
    (hin : move_point_inner m map p g t tld = .fall np g')
    (hinf : m.infallible = false) : p2 ≠ p := by
  unfold move_point at hq
  rw [hin] at hq
  dsimp only at hq
  by_cases hne : np ≠ p ∨ (m.infallible : Prop)
  · rw [if_pos hne] at hq
    injection hq with hq
    have h1 : np = p2 := congrArg Prod.fst hq
    rcases hne with hne | hne
    · rw [← h1]; exact hne
    · rw [hinf] at hne; exact absurd hne (by simp)
  · rw [if_neg hne] at hq
    exact absurd hq (by simp)

lemma ff_repeat_ne (map : DisplaySnapshot) (p : DisplayPoint) (b : Bool) (ch : Char)
    (mode : FindRange) (sc : Bool) (times : Nat) (q : DisplayPoint) (hv : map.Valid p)
    (hq : (if find_forward map p b ch times mode sc = some p
           then find_forward map p b ch (times + 1) mode sc
           else find_forward map p b ch times mode sc) = some q) : q ≠ p := by
  by_cases h0 : find_forward map p b ch times mode sc = some p
  · rw [if_pos h0] at hq
    cases times with
    | zero => rw [find_forward_zero] at h0; exact absurd h0 (by simp)
    | succ n =>
      obtain ⟨-, hs0⟩ := find_forward_spec map p b ch (n + 1) mode sc p hv h0
      obtain ⟨-, hs1⟩ := find_forward_spec map p b ch (n + 2) mode sc q hv hq
      intro he
      rw [he] at hs1
      omega
  · rw [if_neg h0] at hq
    intro he
    rw [he] at hq
    exact h0 hq

lemma sneak_repeat_ne (map : DisplaySnapshot) (p : DisplayPoint) (c1 c2 : Char)
    (times : Nat) (sc : Bool) (q : DisplayPoint) (hv : map.Valid p)
    (hq : (if sneak map p c1 c2 times sc = some p
           then sneak map p c1 c2 (times + 1) sc
           else sneak map p c1 c2 times sc) = some q) : q ≠ p := by
  by_cases h0 : sneak map p c1 c2 times sc = some p
  · rw [if_pos h0] at hq
    obtain ⟨-, hs⟩ := sneak_strict map p c1 c2 (times + 1) sc q hv hq
    intro he
    rw [he] at hs
    omega
  · rw [if_neg h0] at hq
    obtain ⟨-, hs⟩ := sneak_strict map p c1 c2 times sc q hv hq
    intro he
    rw [he] at hs
    omega

lemma snb_repeat_ne (map : DisplaySnapshot) (p : DisplayPoint) (c1 c2 : Char)
    (times : Nat) (sc : Bool) (q : DisplayPoint) (hv : map.Valid p)
    (hq : (if sneak_backward map p c1 c2 times sc = some p
           then sneak_backward map p c1 c2 (times + 1) sc
           else sneak_backward map p c1 c2 times sc) = some q) : q ≠ p := by
  by_cases h0 : sneak_backward map p c1 c2 times sc = some p
  · rw [if_pos h0] at hq
    obtain ⟨-, hs⟩ := sneak_backward_strict map p c1 c2 (times + 1) sc q hv hq
    intro he
    rw [he] at hs
    omega
  · rw [if_neg h0] at hq
    obtain ⟨-, hs⟩ := sneak_backward_strict map p c1 c2 times sc q hv hq
    intro he
    rw [he] at hs
    omega

/-- C2: for every `RepeatFind` and `RepeatFindReversed` whose stored motion is a
find or sneak motion, a successful repeat never returns the input position:
the early-return search arms retry with `count+1` when the first search lands
on the cursor, and the fall-through arms are fallible, so the final no-op
guard converts a stationary result into `None`. -/
theorem repeat_find_never_noop (lf : Motion) (map : DisplaySnapshot) (p : DisplayPoint)
    (g : SelectionGoal) (t : Option Nat) (tld : TextLayoutDetails)
    (hv : map.Valid p) (p2 : DisplayPoint) (g2 : SelectionGoal)
    (hq : move_point (.repeatFind lf) map p g t tld = some (p2, g2)
        ∨ move_point (.repeatFindReversed lf) map p g t tld = some (p2, g2)) :
    p2 ≠ p := by
  rcases hq with hq | hq <;> cases lf <;>
    first
    | exact Option.noConfusion hq
    | exact move_point_fall_ne _ map p g t tld _ _ p2 g2 hq rfl rfl
    | (have h1 := move_point_ret_some _ map p g t tld _ p2 g2 hq rfl
       rcases Option.map_eq_some'.mp h1 with ⟨q, hq1, hq2⟩
       injection hq2 with h2 h3
       rw [← h2]
       first
       | exact ff_repeat_ne map p _ _ _ _ _ q hv hq1
       | exact sneak_repeat_ne map p _ _ _ _ q hv hq1
       | exact snb_repeat_ne map p _ _ _ _ q hv hq1)

/-- C2 witness: on `"abab"` with cursor on the first `a`, repeating
`t b` (which alone would stay put) jumps to the second `a`. -/
theorem repeat_find_never_noop_witness :
    snapAbab.Valid ⟨0, 0⟩
    ∧ move_point (.repeatFind (.findForward true 'b' .multiLine false)) snapAbab
        ⟨0, 0⟩ .none none tldTen = some (⟨0, 2⟩, .none)
    ∧ ((⟨0, 2⟩ : DisplayPoint) ≠ (⟨0, 0⟩ : DisplayPoint)) :=
  ⟨⟨by decide, by decide⟩, by decide,
    repeat_find_never_noop (.findForward true 'b' .multiLine false) snapAbab ⟨0, 0⟩
      .none none tldTen ⟨by decide, by decide⟩ ⟨0, 2⟩ .none (Or.inl (by decide))⟩

lemma matchLoop_absorb (m : DisplaySnapshot) (dp : DisplayPoint) (o : Nat)
    (lr : Nat × Nat) :
    ∀ (l : List ((Nat × Nat) × (Nat × Nat))) (best : Option Nat),
      (∀ pr ∈ l, m.charAt pr.1.1 ≠ '<') →
      matchLoop m dp o lr l best 0 = .inr best := by
  intro l
  induction l with
  | nil => intro best h; rfl
  | cons pr rest ih =>
    intro best h
    have hne := h pr (List.mem_cons_self pr rest)
    unfold matchLoop
    dsimp only
    rw [if_neg hne]
    have hps : pairStep o lr pr.1 pr.2 best 0 = (best, 0) := by
      unfold pairStep
      rw [if_neg (fun hcon => Nat.not_lt_zero _ hcon.2.2),
        if_neg (fun hcon => Nat.not_lt_zero _ hcon.2.2)]
    rw [hps]
    exact ih best (fun r hr => h r (List.mem_cons_of_mem pr hr))

lemma matchLoop_hit (m : DisplaySnapshot) (dp : DisplayPoint) (o : Nat) (lr : Nat × Nat)
    (P : (Nat × Nat) × (Nat × Nat)) (dst : Nat)
    (hlr : lr.1 ≤ o ∧ o < lr.2)
    (hlt : P.1.1 < P.2.1)
    (hside : (o = P.1.1 ∧ dst = P.2.1) ∨ (o = P.2.1 ∧ dst = P.1.1)) :
    ∀ (l : List ((Nat × Nat) × (Nat × Nat))) (best : Option Nat) (bd : Nat),
      P ∈ l →
      (∀ pr ∈ l, m.charAt pr.1.1 ≠ '<' ∧ pr.1.2 = pr.1.1 + 1 ∧ pr.2.2 = pr.2.1 + 1) →
      (∀ pr ∈ l, pr.1.1 = P.1.1 → pr = P) →
      (∀ pr ∈ l, pr.2.1 ≠ P.1.1) →
      (∀ pr ∈ l, pr.1.1 ≠ P.2.1) →
      (∀ pr ∈ l, pr.2.1 = P.2.1 → pr = P) →
      1 ≤ bd →
      matchLoop m dp o lr l best bd = .inr (some dst) := by
  intro l
  induction l with
  | nil => intro best bd hP; exact absurd hP (List.not_mem_nil P)
  | cons pr rest ih =>
    intro best bd hP hwf h1 h2 h3 h4 hbd
    obtain ⟨hne, hpro, hprc⟩ := hwf pr (List.mem_cons_self pr rest)
    have hwft := fun r hr => hwf r (List.mem_cons_of_mem pr hr)
    have h1t := fun r hr => h1 r (List.mem_cons_of_mem pr hr)
    have h2t := fun r hr => h2 r (List.mem_cons_of_mem pr hr)
    have h3t := fun r hr => h3 r (List.mem_cons_of_mem pr hr)
    have h4t := fun r hr => h4 r (List.mem_cons_of_mem pr hr)
    unfold matchLoop
    dsimp only
    rw [if_neg hne]
    by_cases hprP : pr = P
    · subst hprP
      rcases hside with ⟨hoP, hdP⟩ | ⟨hoP, hdP⟩
      · have hps : pairStep o lr pr.1 pr.2 best bd = (some pr.2.1, 0) := by
          unfold pairStep
          rw [if_pos ⟨Or.inr (by omega), ⟨by omega, by omega⟩, by omega⟩]
          have hz : pr.1.1 - o = 0 := by omega
          rw [hz]
        rw [hps, hdP]
        exact matchLoop_absorb m dp o lr rest (some pr.2.1)
          (fun r hr => (hwft r hr).1)
      · have hps : pairStep o lr pr.1 pr.2 best bd = (some pr.1.1, 0) := by
          unfold pairStep
          rw [if_neg (fun hcon => by rcases hcon.1 with hA | hA <;> omega),
            if_pos ⟨Or.inr (by omega), ⟨by omega, by omega⟩, by omega⟩]
          have hz : pr.2.1 - o = 0 := by omega
          rw [hz]
        rw [hps, hdP]
        exact matchLoop_absorb m dp o lr rest (some pr.1.1)
          (fun r hr => (hwft r hr).1)
    · have hPrest : P ∈ rest := by
        rcases List.mem_cons.mp hP with hcon | hok
        · exact absurd hcon.symm hprP
        · exact hok
      have hno1 : pr.1.1 ≠ o := by
        rcases hside with ⟨hoP, -⟩ | ⟨hoP, -⟩
        · intro hcon; exact hprP (h1 pr (List.mem_cons_self pr rest) (by omega))
        · intro hcon; exact h3 pr (List.mem_cons_self pr rest) (by omega)
      have hno2 : pr.2.1 ≠ o := by
        rcases hside with ⟨hoP, -⟩ | ⟨hoP, -⟩
        · intro hcon; exact h2 pr (List.mem_cons_self pr rest) (by omega)
        · intro hcon; exact hprP (h4 pr (List.mem_cons_self pr rest) (by omega))
      by_cases c1 : ((pr.1.1 ≤ o ∧ o < pr.1.2) ∨ o ≤ pr.1.1)
          ∧ (lr.1 ≤ pr.1.1 ∧ pr.1.1 < lr.2) ∧ pr.1.1 - o < bd
      · have hps : pairStep o lr pr.1 pr.2 best bd = (some pr.2.1, pr.1.1 - o) := by
          unfold pairStep
          rw [if_pos c1]
        have hge : 1 ≤ pr.1.1 - o := by
          rcases c1.1 with hA | hA <;> omega
        rw [hps]
        exact ih (some pr.2.1) (pr.1.1 - o) hPrest hwft h1t h2t h3t h4t hge
      · by_cases c2 : ((pr.2.1 ≤ o ∧ o < pr.2.2) ∨ o ≤ pr.2.1)
            ∧ (lr.1 ≤ pr.2.1 ∧ pr.2.1 < lr.2) ∧ pr.2.1 - o < bd
        · have hps : pairStep o lr pr.1 pr.2 best bd = (some pr.1.1, pr.2.1 - o) := by
            unfold pairStep
            rw [if_neg c1, if_pos c2]
          have hge : 1 ≤ pr.2.1 - o := by
            rcases c2.1 with hA | hA <;> omega
          rw [hps]
          exact ih (some pr.1.1) (pr.2.1 - o) hPrest hwft h1t h2t h3t h4t hge
        · have hps : pairStep o lr pr.1 pr.2 best bd = (best, bd) := by
            unfold pairStep
            rw [if_neg c1, if_neg c2]
          rw [hps]
          exact ih best bd hPrest hwft h1t h2t h3t h4t hbd

lemma matching_delim (m : DisplaySnapshot) (ranges : List ((Nat × Nat) × (Nat × Nat)))
    (P : (Nat × Nat) × (Nat × Nat)) (p : DisplayPoint) (o dst : Nat)
    (hbr : m.brackets = some ranges) (hP : P ∈ ranges)
    (hwf : ∀ pr ∈ ranges, m.charAt pr.1.1 ≠ '<' ∧ pr.1.2 = pr.1.1 + 1 ∧ pr.2.2 = pr.2.1 + 1)
    (h1 : ∀ pr ∈ ranges, pr.1.1 = P.1.1 → pr = P)
    (h2 : ∀ pr ∈ ranges, pr.2.1 ≠ P.1.1)
    (h3 : ∀ pr ∈ ranges, pr.1.1 ≠ P.2.1)
    (h4 : ∀ pr ∈ ranges, pr.2.1 = P.2.1 → pr = P)
    (hlt : P.1.1 < P.2.1)
    (hside : (o = P.1.1 ∧ dst = P.2.1) ∨ (o = P.2.1 ∧ dst = P.1.1))
    (hv : m.Valid p) (hc : p.col < m.lineLen p.row) (ho : m.offsetOf p = o) :
    matching m p = m.posOf dst := by
  subst ho
  have hrmin : min p.row m.maxRow = p.row := by
    have hr := hv.1
    refine Nat.min_eq_left ?_
    unfold DisplaySnapshot.maxRow
    omega
  have hclip : m.clipAtLineEnd p = p := by
    unfold DisplaySnapshot.clipAtLineEnd
    dsimp only
    rw [m.clip_id p .left hv]
    rw [if_neg (by omega)]
  have hne : (m.nextLineBoundary p).1 ≠ p := by
    unfold DisplaySnapshot.nextLineBoundary
    dsimp only
    rw [hrmin]
    intro hcon
    have hcol : m.lineLen p.row = p.col := congrArg DisplayPoint.col hcon
    omega
  have hprev : (m.prevLineBoundary p).1 = (⟨p.row, 0⟩ : DisplayPoint) := by
    unfold DisplaySnapshot.prevLineBoundary
    dsimp only
    rw [hrmin]
  have hnext : (m.nextLineBoundary p).1 = (⟨p.row, m.lineLen p.row⟩ : DisplayPoint) := by
    unfold DisplaySnapshot.nextLineBoundary
    dsimp only
    rw [hrmin]
  have hlr : m.offsetOf ⟨p.row, 0⟩ ≤ m.offsetOf p
      ∧ m.offsetOf p < m.offsetOf ⟨p.row, m.lineLen p.row⟩ := by
    have hb := DisplaySnapshot.offsetOfL_col m.lines p.row p.col
    have hcl := DisplaySnapshot.offsetOfL_col m.lines p.row (m.lineLen p.row)
    constructor
    · show DisplaySnapshot.offsetOfL m.lines p.row 0 ≤ DisplaySnapshot.offsetOfL m.lines p.row p.col
      omega
    · show DisplaySnapshot.offsetOfL m.lines p.row p.col < DisplaySnapshot.offsetOfL m.lines p.row (m.lineLen p.row)
      omega
  unfold matching
  dsimp only
  rw [hclip, hbr]
  dsimp only
  rw [if_neg hne, hprev, hnext]
  rw [matchLoop_hit m p (m.offsetOf p)
    (m.offsetOf ⟨p.row, 0⟩, m.offsetOf ⟨p.row, m.lineLen p.row⟩) P dst
    ⟨hlr.1, hlr.2⟩ hlt hside ranges none (2 ^ 64 - 1) hP hwf h1 h2 h3 h4 (by norm_num)]

/-- C6 (amended): `matching` is an involution on the two delimiters of a
bracket pair when every pair of the bracket query has single-character
delimiters, no delimiter is a `<` (which would enter the markup-tag special
case), the pair's delimiter offsets are not shared with any other pair, and
each delimiter addresses a real character of its line.  The unamended claim
fails for multi-character delimiters. -/
theorem matching_involution_singlechar (m : DisplaySnapshot)
    (ranges : List ((Nat × Nat) × (Nat × Nat))) (P : (Nat × Nat) × (Nat × Nat))
    (p1 p2 : DisplayPoint)
    (hbr : m.brackets = some ranges) (hP : P ∈ ranges)
    (hwf : ∀ pr ∈ ranges, m.charAt pr.1.1 ≠ '<' ∧ pr.1.2 = pr.1.1 + 1 ∧ pr.2.2 = pr.2.1 + 1)
    (h1 : ∀ pr ∈ ranges, pr.1.1 = P.1.1 → pr = P)
    (h2 : ∀ pr ∈ ranges, pr.2.1 ≠ P.1.1)
    (h3 : ∀ pr ∈ ranges, pr.1.1 ≠ P.2.1)
    (h4 : ∀ pr ∈ ranges, pr.2.1 = P.2.1 → pr = P)
    (hlt : P.1.1 < P.2.1)
    (hv1 : m.Valid p1) (hc1 : p1.col < m.lineLen p1.row) (ho1 : m.offsetOf p1 = P.1.1)
    (hv2 : m.Valid p2) (hc2 : p2.col < m.lineLen p2.row) (ho2 : m.offsetOf p2 = P.2.1) :
    matching m (matching m p1) = p1 ∧ matching m (matching m p2) = p2 := by
  have q1 : m.posOf P.1.1 = p1 := by rw [← ho1]; exact m.posOf_offsetOf p1 hv1
  have q2 : m.posOf P.2.1 = p2 := by rw [← ho2]; exact m.posOf_offsetOf p2 hv2
  have e1 : matching m p1 = p2 := by
    rw [matching_delim m ranges P p1 P.1.1 P.2.1 hbr hP hwf h1 h2 h3 h4 hlt
      (Or.inl ⟨rfl, rfl⟩) hv1 hc1 ho1]
    exact q2
  have e2 : matching m p2 = p1 := by
    rw [matching_delim m ranges P p2 P.2.1 P.1.1 hbr hP hwf h1 h2 h3 h4 hlt
      (Or.inr ⟨rfl, rfl⟩) hv2 hc2 ho2]
    exact q1
  exact ⟨by rw [e1, e2], by rw [e2, e1]⟩

/-- C6 witness: in `"a(b)c"` with the single pair `(1,2)-(3,4)`, jumping
with `%` from `(` and back, and from `)` and back, returns to the start. -/
theorem matching_involution_singlechar_witness :
    snapParen.brackets = some [((1, 2), (3, 4))]
    ∧ matching snapParen (matching snapParen ⟨0, 1⟩) = ⟨0, 1⟩
    ∧ matching snapParen (matching snapParen ⟨0, 3⟩) = ⟨0, 3⟩ := by
  have h := matching_involution_singlechar snapParen [((1, 2), (3, 4))] ((1, 2), (3, 4))
    ⟨0, 1⟩ ⟨0, 3⟩ rfl (by decide) (by decide) (by decide) (by decide) (by decide)
    (by decide) (by decide) (by decide) (by decide) (by decide) (by decide) (by decide)
    (by decide)
  exact ⟨rfl, h.1, h.2⟩
